import Mathlib

/-!
Verification of the csv-stream repository (package csv): a streaming CSV
decoder built from a byte-level scanning state machine (scanner, in the
unnamed scanner source file) and a buffering stream decoder (stream.go).

Bytes are modelled as natural numbers (the code only compares bytes for
equality, so no modular arithmetic is needed).  The io.Reader wrapped by
bufio is modelled as the list of byte chunks that successive Read calls
will deliver; an empty list means the next Read reports io.EOF with no
bytes.  The buffer-capacity bookkeeping in refill (growing the backing
array, reading into buf from len to cap) only limits how many bytes a
single Read may deliver, i.e. it re-chunks the source; chunk lists
already represent every possible re-chunking, so capacity is not
modelled separately.

Go function-pointer fields (scanner.step, scanner.redoState) are
modelled as Option ScanState; stepping a nil function pointer is a Go
runtime panic, modelled by the whole computation returning none.
-/

namespace CsvStream

/-- A byte of input.  The Go code treats bytes as opaque values compared
for equality against configuration bytes and literal characters. -/
abbrev Byte := Nat

/-- Literal byte values used by the scanner: '"', ',', carriage return,
line feed, tab, space, backslash. -/
def quoteB : Byte := 34
def commaB : Byte := 44
def crB : Byte := 13
def lfB : Byte := 10
def tabB : Byte := 9
def spaceB : Byte := 32
def backslashB : Byte := 92

/-- Scan classification codes, in the order of the Go const block of the
scanner source: scanContinue, scanBeginField, scanFieldDelimiter,
scanSkipSpace, scanEndRecord, scanCarriageReturn, scanBareQuotes,
scanEnd, scanError. -/
def scanContinue : Nat := 0
def scanBeginField : Nat := 1
def scanFieldDelimiter : Nat := 2
def scanSkipSpace : Nat := 3
def scanEndRecord : Nat := 4
def scanCarriageReturn : Nat := 5
def scanBareQuotes : Nat := 6
def scanEnd : Nat := 7
def scanError : Nat := 8

/-- The single parse-stack value parseFieldValue. -/
def parseFieldValue : Nat := 0

/-- The named states of the scanner; in Go each is a function assigned to
scanner.step, here a tag dispatched by Scanner.stepF. -/
inductive ScanState where
  | beginValue
  | beginComment
  | carriageReturn
  | inString
  | inStringEsc
  | bareQuote
  | inQuotedField
  | inUnquotedField
  | beginTextOrEmpty
  | endValue
  | endTop
  | errState
deriving DecidableEq, Repr

/-- The error values the package can produce: ErrBareQuote, ErrQuote,
ErrFieldCount, ErrTrailingComma, the scanner's SyntaxError (message and
byte offset; the formatted character of the Go message is folded into
the context string), and the io errors io.EOF and io.ErrUnexpectedEOF
observed by the decoder. -/
inductive Err where
  | bareQuote
  | quote
  | fieldCount
  | trailingComma
  | synErr (context : String) (offset : Int)
  | eof
  | unexpectedEOF
deriving DecidableEq, Repr

/-- The scanner struct: configuration bytes/flags, the current step
function (none models a nil Go function pointer), the endTop flag, the
parse stack, the stored error, the one-byte-redo fields, and the byte
counter. -/
structure Scanner where
  Delimiter : Byte
  TrimLeadingSpace : Bool
  Comment : Byte
  LazyQuotes : Bool
  step : Option ScanState
  endTop : Bool
  parseState : List Nat
  err : Option Err
  redo : Bool
  redoState : Option ScanState
  bytes : Int
deriving DecidableEq, Repr

/-- scanner.reset: step = stateBeginValue, empty parse stack, no error,
redo cleared, endTop cleared.  (redoState is not touched by reset.) -/
def Scanner.reset (s : Scanner) : Scanner :=
  { s with step := some .beginValue, parseState := [], err := none,
           redo := false, endTop := false }

/-- pushParseState. -/
def Scanner.pushParseState (s : Scanner) (p : Nat) : Scanner :=
  { s with parseState := s.parseState ++ [p] }

/-- popParseState: drop the top entry; on an empty stack move to
stateEndTop and set endTop, otherwise to stateEndValue. -/
def Scanner.popParseState (s : Scanner) : Scanner :=
  let n := s.parseState.length - 1
  let ps := s.parseState.take n
  if n = 0 then
    { s with parseState := ps, step := some .endTop, endTop := true }
  else
    { s with parseState := ps, step := some .endValue }

/-- The package-level isSpace: space, tab or carriage return. -/
def isSpacePkg (c : Byte) : Bool :=
  c = spaceB || c = tabB || c = crB

/-- unicode.IsSpace restricted to byte-sized runes (Latin-1 range):
tab, LF, VT, FF, CR, space, NEL (0x85) and NBSP (0xA0). -/
def unicodeIsSpace (c : Byte) : Bool :=
  c = 9 || c = 10 || c = 11 || c = 12 || c = 13 || c = 32 || c = 0x85 || c = 0xA0

/-- scanner.error: record a SyntaxError and move to the terminal error
state.  (The Go message embeds the offending character via quoteChar;
the message text is opaque to every caller, so only the context string
and offset are kept.) -/
def Scanner.errorF (s : Scanner) (context : String) : Scanner × Nat :=
  ({ s with step := some .errState,
            err := some (.synErr context s.bytes) }, scanError)

/-- stateEndTop: only space characters may follow the top-level value;
anything else records an error, but the returned code is scanEnd either
way. -/
def stateEndTopF (s : Scanner) (c : Byte) : Scanner × Nat :=
  if c ≠ spaceB && c ≠ tabB && c ≠ crB && c ≠ lfB then
    let (s1, _) := s.errorF "after top-level value"
    (s1, scanEnd)
  else
    (s, scanEnd)

/-- stateEndValue: with an empty parse stack defer to stateEndTop; skip
package-space bytes; on the delimiter emit scanFieldDelimiter and return
to stateBeginValue; on LF pop the stack and emit scanEndRecord;
otherwise record a syntax error. -/
def stateEndValueF (s : Scanner) (c : Byte) : Scanner × Nat :=
  let n := s.parseState.length
  if n = 0 then
    let s1 := { s with step := some .endTop, endTop := true }
    stateEndTopF s1 c
  else if c ≤ spaceB && isSpacePkg c then
    ({ s with step := some .endValue }, scanSkipSpace)
  else
    -- ps := s.parseState[n-1]; the only value ever pushed is
    -- parseFieldValue, so the switch always takes that case
    if c = s.Delimiter then
      ({ s with step := some .beginValue,
                parseState := s.parseState.set (n - 1) parseFieldValue },
       scanFieldDelimiter)
    else if c = lfB then
      (s.popParseState, scanEndRecord)
    else
      s.errorF "after array element"

/-- stateBeginComment: consume bytes until a LF returns the scanner to
stateBeginValue; every byte is scanSkipSpace. -/
def stateBeginCommentF (s : Scanner) (c : Byte) : Scanner × Nat :=
  if c = lfB then
    ({ s with step := some .beginValue }, scanSkipSpace)
  else
    (s, scanSkipSpace)

/-- stateBeginValue: optionally skip a leading space, divert comment
lines, then dispatch on the byte: delimiter falls through the switch to
the error-gated scanFieldDelimiter return, quote starts a quoted field,
CR moves to stateCarriageReturn, LF ends the record, anything else
starts an unquoted field. -/
def stateBeginValueF (s : Scanner) (c : Byte) : Scanner × Nat :=
  if c = spaceB && s.TrimLeadingSpace then
    (s, scanSkipSpace)
  else if c = s.Comment then
    ({ s with step := some .beginComment }, scanSkipSpace)
  else if c = s.Delimiter then
    -- switch case s.Delimiter: empty body, falls to the code after the
    -- switch
    if s.err.isSome then
      if s.err = some .eof then (s, scanFieldDelimiter) else (s, scanSkipSpace)
    else
      (s, scanFieldDelimiter)
  else if c = quoteB then
    ({ (s.pushParseState parseFieldValue) with step := some .inQuotedField },
     scanSkipSpace)
  else if c = crB then
    ({ s with step := some .carriageReturn }, scanSkipSpace)
  else if c = lfB then
    (s, scanEndRecord)
  else
    ({ (s.pushParseState parseFieldValue) with step := some .inUnquotedField },
     scanBeginField)

/-- stateCarriageReturn: under TrimLeadingSpace absorb further non-LF
whitespace; a LF closes the value via stateEndValue; any other byte
reinstates redoState and signals scanCarriageReturn. -/
def stateCarriageReturnF (s : Scanner) (c : Byte) : Scanner × Nat :=
  if s.TrimLeadingSpace && c ≠ lfB && unicodeIsSpace c then
    ({ s with step := some .carriageReturn }, scanSkipSpace)
  else if c = lfB then
    stateEndValueF s c
  else
    ({ s with step := s.redoState }, scanCarriageReturn)

/-- stateInString (unreachable from the decoder entry points, kept for
completeness): a quote moves to stateInQuotedField, a backslash to
stateInStringEsc. -/
def stateInStringF (s : Scanner) (c : Byte) : Scanner × Nat :=
  if c = quoteB then
    ({ s with step := some .inQuotedField }, scanSkipSpace)
  else if c = backslashB then
    ({ s with step := some .inStringEsc }, scanContinue)
  else
    (s, scanContinue)

/-- stateBareQuote: the state right after a closing quote.  A delimiter
or LF confirms the field end via stateEndValue; a quote is a doubled
quote (literal content, scanContinue); any other byte is ErrQuote unless
LazyQuotes, in which case the quoted field continues. -/
def stateBareQuoteF (s : Scanner) (c : Byte) : Scanner × Nat :=
  if c = s.Delimiter then
    stateEndValueF s c
  else if c = lfB then
    stateEndValueF { s with step := some .beginValue } c
  else if c ≠ quoteB then
    if !s.LazyQuotes then
      ({ s with err := some .quote }, scanError)
    else
      ({ s with step := some .inQuotedField }, scanBareQuotes)
  else
    ({ s with step := some .inQuotedField }, scanContinue)

/-- stateInQuotedField: a quote tentatively closes the field
(stateBareQuote); everything else is content. -/
def stateInQuotedFieldF (s : Scanner) (c : Byte) : Scanner × Nat :=
  if c = quoteB then
    ({ s with step := some .bareQuote }, scanSkipSpace)
  else
    (s, scanContinue)

/-- stateInUnquotedField: delimiter re-enters stateBeginValue (and is
classified by it); CR defers to stateCarriageReturn remembering this
state in redoState; LF ends the record; a quote is ErrBareQuote unless
LazyQuotes; everything else is content. -/
def stateInUnquotedFieldF (s : Scanner) (c : Byte) : Scanner × Nat :=
  if c = s.Delimiter then
    stateBeginValueF { s with step := some .beginValue } c
  else if c = crB then
    ({ s with redoState := some .inUnquotedField, step := some .carriageReturn },
     scanSkipSpace)
  else if c = lfB then
    ({ s with step := some .beginValue }, scanEndRecord)
  else if !s.LazyQuotes && c = quoteB then
    ({ s with err := some .bareQuote }, scanError)
  else
    (s, scanContinue)

/-- stateBeginTextOrEmpty (never installed as a step by this scanner
variant, kept for completeness). -/
def stateBeginTextOrEmptyF (s : Scanner) (c : Byte) : Scanner × Nat :=
  if c = s.Delimiter then
    stateEndValueF s c
  else if c = lfB then
    stateEndValueF s c
  else if !s.LazyQuotes && c = quoteB then
    ({ s with err := some .bareQuote }, scanError)
  else
    (s, scanContinue)

/-- stateInStringEsc (unreachable from the decoder entry points): only a
quote is a valid escape. -/
def stateInStringEscF (s : Scanner) (c : Byte) : Scanner × Nat :=
  if c = quoteB then
    ({ s with step := some .inString }, scanContinue)
  else
    s.errorF "in string escape code"

/-- stateError: the terminal error state, always scanError. -/
def stateErrorF (s : Scanner) (_c : Byte) : Scanner × Nat :=
  (s, scanError)

/-- One scanner step: dispatch s.step(s, c).  none models calling a nil
function pointer (a Go panic). -/
def Scanner.stepF (s : Scanner) (c : Byte) : Option (Scanner × Nat) :=
  match s.step with
  | none => none
  | some st =>
    some (match st with
      | .beginValue => stateBeginValueF s c
      | .beginComment => stateBeginCommentF s c
      | .carriageReturn => stateCarriageReturnF s c
      | .inString => stateInStringF s c
      | .inStringEsc => stateInStringEscF s c
      | .bareQuote => stateBareQuoteF s c
      | .inQuotedField => stateInQuotedFieldF s c
      | .inUnquotedField => stateInUnquotedFieldF s c
      | .beginTextOrEmpty => stateBeginTextOrEmptyF s c
      | .endValue => stateEndValueF s c
      | .endTop => stateEndTopF s c
      | .errState => stateErrorF s c)

/-- The Decoder struct of stream.go: FieldsPerRecord, the chunked source
(the bufio-wrapped io.Reader), the growable buffer with its unread-data
cursor scanp, the scanner, the sticky error, the unescaped-content
lineBuffer and the fieldIndexes offsets.  The unused remnant fields
(TrailingComma, ReuseRecord, line, column, the decodeState d, tokenState,
tokenStack) are read by no code path and are omitted. -/
structure Decoder where
  FieldsPerRecord : Int
  src : List (List Byte)
  buf : List Byte
  scanp : Nat
  scan : Scanner
  err : Option Err
  lineBuffer : List Byte
  fieldIndexes : List Nat
deriving DecidableEq, Repr

/-- NewDecoder: delimiter comma, everything else at its Go zero value
(in particular scan.step and scan.redoState are nil function pointers
until the first reset). -/
def NewDecoder (src : List (List Byte)) : Decoder :=
  { FieldsPerRecord := 0
    src := src
    buf := []
    scanp := 0
    scan := { Delimiter := commaB, TrimLeadingSpace := false, Comment := 0,
              LazyQuotes := false, step := none, endTop := false,
              parseState := [], err := none, redo := false,
              redoState := none, bytes := 0 }
    err := none
    lineBuffer := []
    fieldIndexes := [] }

/-- The compaction step at the top of refill: slide the unconsumed data
down to the start of the buffer.  (The subsequent capacity growth only
affects how many bytes one Read may deliver; see the header comment.) -/
def Decoder.compact (d : Decoder) : Decoder :=
  if d.scanp > 0 then
    { d with buf := d.buf.drop d.scanp, scanp := 0 }
  else
    d

/-- Decoder.isSpace: tab/CR/LF, plus space when TrimLeadingSpace. -/
def decoderIsSpace (trim : Bool) (c : Byte) : Bool :=
  if !trim then
    c = tabB || c = crB || c = lfB
  else
    c = spaceB || c = tabB || c = crB || c = lfB

/-- The inner loop of peek: scan buf from index i for the first byte
that is not Decoder.isSpace, returning its index and value. -/
def findNonSpace (trim : Bool) : List Byte → Nat → Option (Nat × Byte)
  | [], _ => none
  | c :: cs, i =>
    if decoderIsSpace trim c then findNonSpace trim cs (i + 1)
    else some (i, c)

/-- The loop of Decoder.peek, recursing on the chunks the source will
deliver.  Each iteration scans the buffered data for a non-space byte
(setting scanp to its index when found), then reports a pending refill
error, then refills.  When the source is exhausted, refill returns
io.EOF and the following iteration re-scans the unchanged buffer before
reporting the error. -/
def peekLoop (d : Decoder) : List (List Byte) → Decoder × Option Byte × Option Err
  | [] =>
    match findNonSpace d.scan.TrimLeadingSpace (d.buf.drop d.scanp) d.scanp with
    | some (i, c) => ({ d with scanp := i, src := [] }, some c, none)
    | none =>
      -- err = refill() = io.EOF (compaction still happens first)
      let d1 := Decoder.compact { d with src := [] }
      match findNonSpace d1.scan.TrimLeadingSpace (d1.buf.drop d1.scanp) d1.scanp with
      | some (i, c) => ({ d1 with scanp := i }, some c, none)
      | none => (d1, none, some .eof)
  | chunk :: rest =>
    match findNonSpace d.scan.TrimLeadingSpace (d.buf.drop d.scanp) d.scanp with
    | some (i, c) => ({ d with scanp := i, src := chunk :: rest }, some c, none)
    | none =>
      -- err = refill(): compact, then one Read appending the next chunk
      let d1 := Decoder.compact d
      peekLoop { d1 with buf := d1.buf ++ chunk, src := rest } rest

/-- Decoder.peek. -/
def Decoder.peek (d : Decoder) : Decoder × Option Byte × Option Err :=
  peekLoop d d.src

/-- Decoder.More: peek succeeded and the scanner holds no error. -/
def Decoder.More (d : Decoder) : Decoder × Bool :=
  match d.peek with
  | (d1, _, e) => (d1, e = none && d1.scan.err = none)

/-- Outcome of the inner byte-scanning loop of readRecord over one
buffer slice. -/
inductive ScanOutcome where
  | endOfBuf
  | stopped (consumed : Nat)
  | failed (e : Option Err)
  | crashed
deriving DecidableEq, Repr

/-- The body of the inner loop of readRecord, for one byte: increment
the byte counter and feed the byte to the scanner; non-structural codes
append the byte to lineBuffer; a field delimiter records the next field
offset; scanEnd stops before the byte (0 bytes consumed), scanEndRecord
after it (1 byte consumed, undoing the last write when the scanner redo
flag is set); scanError aborts with the scanner error; any other code
continues the loop (outcome none). -/
def scanStep1 (scan : Scanner) (lb : List Byte) (fi : List Nat) (c : Byte) :
    (Scanner × List Byte × List Nat) × Option ScanOutcome :=
  let scan1 := { scan with bytes := scan.bytes + 1 }
  match scan1.stepF c with
  | none => ((scan1, lb, fi), some .crashed)
  | some (scan2, v) =>
    let lb2 := if v ≠ scanFieldDelimiter && v ≠ scanEndRecord &&
                  v ≠ scanSkipSpace && v ≠ scanError then lb ++ [c] else lb
    let fi2 := if v = scanFieldDelimiter then fi ++ [lb2.length] else fi
    if v = scanEnd then
      ((scan2, lb2, fi2), some (.stopped 0))
    else if v = scanEndRecord then
      let lb3 := if scan2.redo then lb2.take (lb2.length - 1) else lb2
      ((scan2, lb3, fi2), some (.stopped 1))
    else if v = scanError then
      ((scan2, lb2, fi2), some (.failed scan2.err))
    else
      ((scan2, lb2, fi2), none)

/-- The inner loop of readRecord over one buffer slice: apply scanStep1
to each byte until it stops or the slice runs out; stopped counts the
bytes consumed from the slice. -/
def scanLoop (scan : Scanner) (lb : List Byte) (fi : List Nat) :
    List Byte → Scanner × List Byte × List Nat × ScanOutcome
  | [] => (scan, lb, fi, .endOfBuf)
  | c :: cs =>
    match scanStep1 scan lb fi c with
    | ((s2, l2, f2), some o) => (s2, l2, f2, o)
    | ((s2, l2, f2), none) =>
      match scanLoop s2 l2 f2 cs with
      | (s3, lb3, fi3, .stopped k) => (s3, lb3, fi3, .stopped (k + 1))
      | r => r

/-- The iteration of the readRecord loop that runs with err = io.EOF
pending from the previous refill: scan whatever is buffered; if the
buffer runs out, consume it all (d.scanp = scanp) and break out of the
loop returning scanp - d.scanp = 0 with no error. -/
def readRecordAfterEOF (d : Decoder) (scanp : Nat) :
    Option (Decoder × Nat × Option Err) :=
  match scanLoop d.scan d.lineBuffer d.fieldIndexes (d.buf.drop scanp) with
  | (_, _, _, .crashed) => none
  | (s, l, f, .stopped k) =>
    some ({ d with scan := s, lineBuffer := l, fieldIndexes := f },
          scanp + k - d.scanp, none)
  | (s, l, f, .failed e) =>
    some ({ d with scan := s, lineBuffer := l, fieldIndexes := f, err := e },
          0, e)
  | (s, l, f, .endOfBuf) =>
    let d1 := { d with scan := s, lineBuffer := l, fieldIndexes := f }
    let scanp1 := d1.buf.length
    let d2 := { d1 with scanp := scanp1 }
    some (d2, scanp1 - d2.scanp, none)

/-- One iteration of the readRecord loop up to the refill decision:
either a final result (record complete, scanner error, or panic), or the
state to refill from (the compacted decoder and the rescaled local
cursor d.scanp + n). -/
def readRecordIter (d : Decoder) (scanp : Nat) (src : List (List Byte)) :
    Sum (Option (Decoder × Nat × Option Err)) (Decoder × Nat) :=
  match scanLoop d.scan d.lineBuffer d.fieldIndexes (d.buf.drop scanp) with
  | (_, _, _, .crashed) => .inl none
  | (s, l, f, .stopped k) =>
    .inl (some ({ d with scan := s, lineBuffer := l, fieldIndexes := f,
                         src := src },
                scanp + k - d.scanp, none))
  | (s, l, f, .failed e) =>
    .inl (some ({ d with scan := s, lineBuffer := l, fieldIndexes := f,
                         src := src, err := e },
                0, e))
  | (s, l, f, .endOfBuf) =>
    let d1 := { d with scan := s, lineBuffer := l, fieldIndexes := f }
    let scanp1 := d1.buf.length
    let n := scanp1 - d1.scanp
    let d2 := Decoder.compact d1
    .inr (d2, d2.scanp + n)

/-- The loop of readRecord, recursing on the chunks of the source: run
one iteration; when it requests a refill, append the next chunk and
continue, or, with the source exhausted, run the final iteration with
io.EOF pending. -/
def readRecordLoop (d : Decoder) (scanp : Nat) :
    List (List Byte) → Option (Decoder × Nat × Option Err)
  | [] =>
    match readRecordIter d scanp [] with
    | .inl r => r
    | .inr (d2, sp) => readRecordAfterEOF { d2 with src := [] } sp
  | chunk :: rest =>
    match readRecordIter d scanp (chunk :: rest) with
    | .inl r => r
    | .inr (d2, sp) =>
      readRecordLoop { d2 with buf := d2.buf ++ chunk, src := rest } sp rest

/-- Decoder.readRecord: reset the scanner, record the first field offset
0, then run the loop from the unread-data cursor. -/
def Decoder.readRecord (d : Decoder) : Option (Decoder × Nat × Option Err) :=
  let d1 := { d with scan := d.scan.reset }
  let d2 := { d1 with fieldIndexes := d1.fieldIndexes ++ [0] }
  readRecordLoop d2 d2.scanp d2.src

/-- The field-assembly loop of Decode: slice lineBuffer at the recorded
offsets; the i-th field runs from fieldIndexes i to fieldIndexes (i+1),
the last to the end of the buffer. -/
def sliceFields (line : List Byte) : List Nat → List (List Byte)
  | [] => []
  | [idx] => [line.drop idx]
  | idx :: next :: rest => ((line.take next).drop idx) :: sliceFields line (next :: rest)

/-- Decoder.Decode: return the sticky error if set; otherwise reset the
record buffers, read one record, map a readRecord io.EOF with no started
fields to io.ErrUnexpectedEOF, store any error, else advance the cursor,
assemble fields, and apply the FieldsPerRecord policy (positive:
enforce, returning the fields together with ErrFieldCount on mismatch;
zero: adopt the first record's count; negative: no check).  A none
result models a Go panic inside the call. -/
def Decoder.Decode (d : Decoder) :
    Option (Decoder × Option (List (List Byte)) × Option Err) :=
  match d.err with
  | some e => some (d, none, some e)
  | none =>
    let d1 := { d with lineBuffer := [], fieldIndexes := [] }
    match d1.readRecord with
    | none => none
    | some (d2, n, eo) =>
      match eo with
      | some e =>
        let e1 := if e = .eof then
                    (if d2.fieldIndexes.length = 0 then Err.unexpectedEOF else e)
                  else e
        some ({ d2 with err := some e1 }, none, some e1)
      | none =>
        let d3 := { d2 with scanp := d2.scanp + n }
        let fields := sliceFields d3.lineBuffer d3.fieldIndexes
        if d3.FieldsPerRecord > 0 then
          if (fields.length : Int) ≠ d3.FieldsPerRecord then
            some ({ d3 with err := some .fieldCount }, some fields,
                  some .fieldCount)
          else
            some (d3, some fields, none)
        else if d3.FieldsPerRecord = 0 then
          some ({ d3 with FieldsPerRecord := (fields.length : Int) }, some fields, none)
        else
          some (d3, some fields, none)

/-- The observable outcome of one Decode call: the returned record and
error (none for the whole pair models a panic). -/
def decodeObs (d : Decoder) : Option (Option (List (List Byte)) × Option Err) :=
  d.Decode.map (fun x => (x.2.1, x.2.2))

/-- The sequence of observable outcomes of k successive Decode calls; a
panic ends the sequence with a none entry. -/
def decodeSeq : Nat → Decoder → List (Option (Option (List (List Byte)) × Option Err))
  | 0, _ => []
  | k + 1, d =>
    match d.Decode with
    | none => [none]
    | some (d1, r, e) => some (r, e) :: decodeSeq k d1

/-- A decoder identical to NewDecoder but with the scanner's (unexported)
LazyQuotes flag enabled. -/
def lazyDecoder (src : List (List Byte)) : Decoder :=
  let d := NewDecoder src
  { d with scan := { d.scan with LazyQuotes := true } }

/-- The default scanner in its reset state, as installed by the first
readRecord of a fresh decoder. -/
def scan0 : Scanner := (NewDecoder []).scan.reset

/-- C2: if the decoder holds a stored error, Decode returns exactly that
error immediately and leaves the whole decoder state (buffers, cursor,
source, scanner) unchanged. -/
theorem c2_sticky_error (d : Decoder) (e : Err) (h : d.err = some e) :
    d.Decode = some (d, none, some e) := by
  unfold Decoder.Decode
  rw [h]

/-- A decoder in a failed state, used to witness c2_sticky_error. -/
def c2Dec : Decoder := { NewDecoder [[97, 10]] with err := some Err.bareQuote }

/-- Witness for c2_sticky_error at a concrete failed decoder. -/
theorem c2_sticky_error_witness :
    c2Dec.err = some Err.bareQuote ∧
    c2Dec.Decode = some (c2Dec, none, some Err.bareQuote) :=
  ⟨rfl, c2_sticky_error c2Dec Err.bareQuote rfl⟩

/-- C3 counterexample: after the scanner classifies a bare quote in an
unquoted field as Error (storing ErrBareQuote), the very next step on an
ordinary byte returns scanContinue, not Error: the error state is not
terminal. -/
theorem c3_error_state_not_terminal_cex :
    ((scan0.stepF 97).bind (fun x => x.1.stepF quoteB)).map
        (fun x => (x.2, x.1.err, x.1.step)) =
      some (scanError, some Err.bareQuote, some ScanState.inUnquotedField) ∧
    (((scan0.stepF 97).bind (fun x => x.1.stepF quoteB)).bind
        (fun x => x.1.stepF 98)).map (fun x => x.2) =
      some scanContinue := by decide

/-- C3 amended: with lazy quotes disabled, a bare quote in an unquoted
field and a non-quote/delimiter/newline byte after a closing quote each
return the Error classification and store the corresponding error, but
they leave the step state in place (the scanner does not enter the
terminal error state, so later steps may return non-Error codes); the
stored error survives until reset clears it.  Only the terminal errState
installed by the scanner's own error method is absorbing. -/
theorem c3_malformed_error_amended (s : Scanner) (c : Byte)
    (hlazy : s.LazyQuotes = false) :
    (s.step = some ScanState.inUnquotedField → c = quoteB →
      s.Delimiter ≠ quoteB →
      s.stepF c = some ({ s with err := some Err.bareQuote }, scanError)) ∧
    (s.step = some ScanState.bareQuote → c ≠ s.Delimiter → c ≠ lfB →
      c ≠ quoteB →
      s.stepF c = some ({ s with err := some Err.quote }, scanError)) ∧
    (s.step = some ScanState.errState →
      ∀ s1 v, s.stepF c = some (s1, v) → v = scanError ∧ s1 = s) ∧
    (s.reset.err = none ∧ s.reset.step = some ScanState.beginValue) := by
  refine ⟨?_, ?_, ?_, rfl, rfl⟩
  · intro hst hc hd
    subst hc
    simp [Scanner.stepF, hst, stateInUnquotedFieldF, hd, hlazy, quoteB, crB, lfB]
    intro h
    exact absurd h.symm hd
  · intro hst hc hd hq
    simp [Scanner.stepF, hst, stateBareQuoteF, hc, hd, hq, hlazy]
  · intro hst s1 v h
    simp [Scanner.stepF, hst, stateErrorF] at h
    exact ⟨h.2.symm, h.1.symm⟩

/-- A scanner mid-way through an unquoted field, used to witness
c3_malformed_error_amended. -/
def c3Scan : Scanner := { scan0 with step := some ScanState.inUnquotedField }

/-- Witness for c3_malformed_error_amended: the bare-quote transition at
a concrete scanner. -/
theorem c3_malformed_error_amended_witness :
    c3Scan.LazyQuotes = false ∧
    (c3Scan.step = some ScanState.inUnquotedField → (quoteB : Byte) = quoteB →
      c3Scan.Delimiter ≠ quoteB →
      c3Scan.stepF quoteB = some ({ c3Scan with err := some Err.bareQuote }, scanError)) :=
  ⟨rfl, (c3_malformed_error_amended c3Scan quoteB rfl).1⟩

/-- C4: with the default configuration, one record holding the input
bytes of the line with a doubled quote inside a quoted field followed by
a plain field (and a newline) decodes to exactly two fields: the first
contains a single literal quote between the letters, the second is the
plain field. -/
theorem c4_doubled_quote :
    decodeObs (NewDecoder [[quoteB, 97, quoteB, quoteB, 98, quoteB, commaB, 99, lfB]]) =
      some (some [[97, quoteB, 98], [99]], none) := by decide

/-- C5 counterexample: for the record body consisting of the letter a
followed by a carriage return, CRLF termination and LF termination
decode differently: the CRLF input keeps the CR byte as field content
while the LF input drops it. -/
theorem c5_crlf_lf_cex :
    decodeObs (NewDecoder [[97, crB, crB, lfB]]) = some (some [[97, crB]], none) ∧
    decodeObs (NewDecoder [[97, crB, lfB]]) = some (some [[97]], none) := by decide

/-- C6: with lazy quotes disabled, the input with a bare quote in the
middle of an unquoted field fails with ErrBareQuote; with lazy quotes
enabled, the same input decodes and the quote byte is literal content of
the first field. -/
theorem c6_bare_quote_lazy :
    decodeObs (NewDecoder [[97, quoteB, 98, commaB, 99]]) =
      some (none, some Err.bareQuote) ∧
    decodeObs (lazyDecoder [[97, quoteB, 98, commaB, 99]]) =
      some (some [[97, quoteB, 98], [99]], none) := by decide

/-- C7 counterexample: a Decode on an already-exhausted source returns a
record of one empty field with no error (not an end-of-input condition),
and a Decode whose source ends mid-field returns the partial record with
no error (not io.ErrUnexpectedEOF). -/
theorem c7_end_of_input_cex :
    decodeObs (NewDecoder []) = some (some [[]], none) ∧
    decodeObs (NewDecoder [[97]]) = some (some [[97]], none) := by decide

/-- C9 counterexample: on input of a tab, a letter and a newline, a
direct Decode yields the field starting with the tab byte, but calling
More first advances the cursor past the tab (a content byte of the next
record), after which Decode yields the field without it. -/
theorem c9_more_consumes_content_cex :
    decodeObs (NewDecoder [[tabB, 98, lfB]]) = some (some [[tabB, 98]], none) ∧
    ((NewDecoder [[tabB, 98, lfB]]).More).2 = true ∧
    decodeObs ((NewDecoder [[tabB, 98, lfB]]).More).1 = some (some [[98]], none) := by
  decide

/-! ### Composition properties of the inner scanning loop -/

/-- Shift the consumed-byte count of a stopped outcome by m (used to
relate a scan of a concatenation to scans of its parts). -/
def shiftStopped (m : Nat) :
    Scanner × List Byte × List Nat × ScanOutcome →
    Scanner × List Byte × List Nat × ScanOutcome
  | (s, l, f, .stopped k) => (s, l, f, .stopped (m + k))
  | r => r

theorem shiftStopped_zero (r : Scanner × List Byte × List Nat × ScanOutcome) :
    shiftStopped 0 r = r := by
  obtain ⟨s, l, f, o⟩ := r
  cases o <;> simp [shiftStopped]

theorem shiftStopped_wrap (m : Nat)
    (r : Scanner × List Byte × List Nat × ScanOutcome) :
    (match shiftStopped m r with
     | (s3, lb3, fi3, .stopped k) => (s3, lb3, fi3, ScanOutcome.stopped (k + 1))
     | r1 => r1) = shiftStopped (m + 1) r := by
  obtain ⟨s, l, f, o⟩ := r
  cases o <;> simp [shiftStopped] <;> omega

/-- scanStep1 never stops with the endOfBuf outcome (that outcome is
reserved for exhausting the slice). -/
theorem scanStep1_ne_endOfBuf (scan : Scanner) (lb : List Byte)
    (fi : List Nat) (c : Byte) (st : Scanner × List Byte × List Nat)
    (o : ScanOutcome) (h : scanStep1 scan lb fi c = (st, some o)) :
    o ≠ .endOfBuf := by
  unfold scanStep1 at h
  simp only [] at h
  cases hstep : ({ scan with bytes := scan.bytes + 1 } : Scanner).stepF c with
  | none =>
    rw [hstep] at h
    simp at h
    intro ho
    rw [ho] at h
    simp at h
  | some sv =>
    obtain ⟨s2, v⟩ := sv
    rw [hstep] at h
    simp only [] at h
    intro ho
    subst ho
    split at h
    · simp at h
    · split at h
      · simp at h
      · split at h
        · simp at h
        · simp at h

/-- Scanning a concatenation: if the first part is fully consumed, the
scan continues on the second part from the resulting state, with the
consumed count shifted by the first part's length. -/
theorem scanLoop_append (xs ys : List Byte) (s : Scanner) (lb : List Byte)
    (fi : List Nat) :
    scanLoop s lb fi (xs ++ ys) =
      match scanLoop s lb fi xs with
      | (s1, l1, f1, .endOfBuf) => shiftStopped xs.length (scanLoop s1 l1 f1 ys)
      | r => r := by
  induction xs generalizing s lb fi with
  | nil =>
    simp [scanLoop, shiftStopped_zero]
  | cons c cs ih =>
    simp only [List.cons_append, scanLoop]
    rcases hstep : scanStep1 s lb fi c with ⟨⟨s2, l2, f2⟩, o⟩
    cases o with
    | some o1 =>
      have hne := scanStep1_ne_endOfBuf s lb fi c _ _ hstep
      cases o1 with
      | endOfBuf => exact absurd rfl hne
      | stopped k => simp
      | failed e => simp
      | crashed => simp
    | none =>
      simp only [List.append_eq]
      rw [ih]
      rcases hcs : scanLoop s2 l2 f2 cs with ⟨s3, l3, f3, o3⟩
      cases o3 with
      | endOfBuf =>
        simp only [List.length_cons]
        exact shiftStopped_wrap cs.length (scanLoop s3 l3 f3 ys)
      | stopped k => simp
      | failed e => simp
      | crashed => simp

/-- The stopped count of scanStep1 is 0 or 1. -/
theorem scanStep1_stopped_le (scan : Scanner) (lb : List Byte)
    (fi : List Nat) (c : Byte) (st : Scanner × List Byte × List Nat)
    (k : Nat) (h : scanStep1 scan lb fi c = (st, some (.stopped k))) :
    k ≤ 1 := by
  unfold scanStep1 at h
  simp only [] at h
  cases hstep : ({ scan with bytes := scan.bytes + 1 } : Scanner).stepF c with
  | none =>
    rw [hstep] at h
    simp at h
  | some sv =>
    obtain ⟨s2, v⟩ := sv
    rw [hstep] at h
    simp only [] at h
    split at h
    · simp at h
      omega
    · split at h
      · simp at h
        omega
      · split at h
        · simp at h
        · simp at h

/-- A stopped scan consumed at most the scanned slice. -/
theorem scanLoop_stopped_le (bs : List Byte) :
    ∀ (s : Scanner) (lb : List Byte) (fi : List Nat) (s1 : Scanner)
      (l1 : List Byte) (f1 : List Nat) (k : Nat),
      scanLoop s lb fi bs = (s1, l1, f1, .stopped k) → k ≤ bs.length := by
  induction bs with
  | nil =>
    intro s lb fi s1 l1 f1 k h
    simp [scanLoop] at h
  | cons c cs ih =>
    intro s lb fi s1 l1 f1 k h
    simp only [scanLoop] at h
    rcases hstep : scanStep1 s lb fi c with ⟨⟨s2, l2, f2⟩, o⟩
    rw [hstep] at h
    cases o with
    | some o1 =>
      cases o1 with
      | stopped k1 =>
        simp at h
        have := scanStep1_stopped_le s lb fi c _ _ hstep
        simp
        omega
      | endOfBuf => simp at h
      | failed e => simp at h
      | crashed => simp at h
    | none =>
      simp only [] at h
      rcases hcs : scanLoop s2 l2 f2 cs with ⟨s3, l3, f3, o3⟩
      rw [hcs] at h
      cases o3 with
      | stopped k3 =>
        simp at h
        have := ih _ _ _ _ _ _ _ hcs
        simp
        omega
      | endOfBuf => simp at h
      | failed e => simp at h
      | crashed => simp at h

/-- Compaction normal form: buf loses the consumed prefix and the cursor
becomes 0 (when the cursor is already 0 there is nothing to slide). -/
theorem compact_eq (d : Decoder) :
    d.compact = { d with buf := d.buf.drop d.scanp, scanp := 0 } := by
  unfold Decoder.compact
  split
  · rfl
  · have h0 : d.scanp = 0 := by omega
    rw [h0, List.drop_zero, ← h0]

/-- Dropping the first part of a concatenation plus k more bytes. -/
theorem drop_length_add (l1 l2 : List Byte) (k : Nat) :
    (l1 ++ l2).drop (l1.length + k) = l2.drop k := by
  rw [List.drop_append_eq_append_drop]
  rw [List.drop_eq_nil_of_le (Nat.le_add_right _ _), List.nil_append]
  congr 1
  omega

/-- The readRecord loop is equivalent to a single flat scan of the
remaining logical byte stream (the unscanned buffered bytes followed by
all bytes the source will still deliver): the resulting scanner,
lineBuffer, fieldIndexes and error agree, and the remaining stream after
the call is the flat stream minus the consumed bytes (all of it when the
loop ran into end-of-input; unchanged when the scan failed). -/
theorem readRecordLoop_flat (src : List (List Byte)) :
    ∀ (d : Decoder) (scanp : Nat),
      d.scanp ≤ scanp → scanp ≤ d.buf.length →
      (match scanLoop d.scan d.lineBuffer d.fieldIndexes
          (d.buf.drop scanp ++ src.flatten) with
       | (_, _, _, .crashed) => readRecordLoop d scanp src = none
       | (s, l, f, .stopped k) =>
         ∃ d1 n, readRecordLoop d scanp src = some (d1, n, none) ∧
           d1.scan = s ∧ d1.lineBuffer = l ∧ d1.fieldIndexes = f ∧
           d1.FieldsPerRecord = d.FieldsPerRecord ∧ d1.err = d.err ∧
           d1.scanp + n ≤ d1.buf.length ∧
           d1.buf.drop (d1.scanp + n) ++ d1.src.flatten =
             (d.buf.drop scanp ++ src.flatten).drop k
       | (s, l, f, .endOfBuf) =>
         ∃ d1 n, readRecordLoop d scanp src = some (d1, n, none) ∧
           d1.scan = s ∧ d1.lineBuffer = l ∧ d1.fieldIndexes = f ∧
           d1.FieldsPerRecord = d.FieldsPerRecord ∧ d1.err = d.err ∧
           d1.scanp + n ≤ d1.buf.length ∧
           d1.buf.drop (d1.scanp + n) ++ d1.src.flatten = []
       | (s, l, f, .failed e) =>
         ∃ d1, readRecordLoop d scanp src = some (d1, 0, e) ∧
           d1.scan = s ∧ d1.lineBuffer = l ∧ d1.fieldIndexes = f ∧
           d1.FieldsPerRecord = d.FieldsPerRecord ∧ d1.err = e ∧
           d1.scanp ≤ d1.buf.length ∧
           d1.buf.drop d1.scanp ++ d1.src.flatten =
             d.buf.drop d.scanp ++ src.flatten) := by
  induction src with
  | nil =>
    intro d scanp h1 h2
    simp only [List.flatten_nil, List.append_nil]
    rcases hx : scanLoop d.scan d.lineBuffer d.fieldIndexes (d.buf.drop scanp)
      with ⟨s, l, f, o⟩
    cases o with
    | crashed =>
      simp [readRecordLoop, readRecordIter, hx]
    | stopped k =>
      have hk := scanLoop_stopped_le _ _ _ _ _ _ _ _ hx
      rw [List.length_drop] at hk
      refine ⟨{ d with scan := s, lineBuffer := l, fieldIndexes := f, src := [] },
              scanp + k - d.scanp, ?_, rfl, rfl, rfl, rfl, rfl, ?_, ?_⟩
      · simp [readRecordLoop, readRecordIter, hx]
      · simp only []
        omega
      · simp only [List.flatten_nil, List.append_nil, List.drop_drop]
        have harith : d.scanp + (scanp + k - d.scanp) = scanp + k := by omega
        rw [harith]
    | failed e =>
      refine ⟨{ d with scan := s, lineBuffer := l, fieldIndexes := f, src := [],
                       err := e }, ?_, rfl, rfl, rfl, rfl, rfl, ?_, ?_⟩
      · simp [readRecordLoop, readRecordIter, hx]
      · simp only []
        omega
      · simp only [List.flatten_nil, List.append_nil]
    | endOfBuf =>
      refine ⟨{ d with scan := s, lineBuffer := l, fieldIndexes := f, src := [],
                       buf := d.buf.drop d.scanp,
                       scanp := (d.buf.drop d.scanp).length },
              0, ?_, rfl, rfl, rfl, rfl, rfl, ?_, ?_⟩
      · have hdrop : d.scanp + (d.buf.length - d.scanp) = d.buf.length := by
          omega
        simp [readRecordLoop, readRecordIter, hx, compact_eq, readRecordAfterEOF,
              List.length_drop, hdrop, List.drop_length, scanLoop]
      · simp only []
        omega
      · simp [List.drop_length]
        omega
  | cons chunk rest ih =>
    intro d scanp h1 h2
    rw [List.flatten_cons]
    rw [scanLoop_append]
    rcases hx : scanLoop d.scan d.lineBuffer d.fieldIndexes (d.buf.drop scanp)
      with ⟨s, l, f, o⟩
    cases o with
    | crashed =>
      simp [readRecordLoop, readRecordIter, hx]
    | stopped k =>
      have hk := scanLoop_stopped_le _ _ _ _ _ _ _ _ hx
      rw [List.length_drop] at hk
      refine ⟨{ d with scan := s, lineBuffer := l, fieldIndexes := f,
                       src := chunk :: rest },
              scanp + k - d.scanp, ?_, rfl, rfl, rfl, rfl, rfl, ?_, ?_⟩
      · simp [readRecordLoop, readRecordIter, hx]
      · simp only []
        omega
      · simp only []
        rw [List.drop_append_eq_append_drop]
        have hz : k - (d.buf.drop scanp).length = 0 := by
          rw [List.length_drop]; omega
        rw [hz, List.drop_zero, List.drop_drop]
        have harith : d.scanp + (scanp + k - d.scanp) = scanp + k := by omega
        rw [harith, List.flatten_cons]
    | failed e =>
      refine ⟨{ d with scan := s, lineBuffer := l, fieldIndexes := f,
                       src := chunk :: rest, err := e },
              ?_, rfl, rfl, rfl, rfl, rfl, ?_, ?_⟩
      · simp [readRecordLoop, readRecordIter, hx]
      · simp only []
        omega
      · simp only [List.flatten_cons]
    | endOfBuf =>
      have hloop : readRecordLoop d scanp (chunk :: rest) =
          readRecordLoop
            { d with scan := s, lineBuffer := l, fieldIndexes := f,
                     buf := d.buf.drop d.scanp ++ chunk, scanp := 0,
                     src := rest }
            (d.buf.length - d.scanp) rest := by
        simp [readRecordLoop, readRecordIter, hx, compact_eq]
      have h1x : (0 : Nat) ≤ d.buf.length - d.scanp := Nat.zero_le _
      have h2x : d.buf.length - d.scanp ≤
          (d.buf.drop d.scanp ++ chunk).length := by
        rw [List.length_append, List.length_drop]
        omega
      have ihx := ih { d with scan := s, lineBuffer := l, fieldIndexes := f,
                              buf := d.buf.drop d.scanp ++ chunk, scanp := 0,
                              src := rest }
                     (d.buf.length - d.scanp) h1x h2x
      simp only [] at ihx
      have hd3 : (d.buf.drop d.scanp ++ chunk).drop (d.buf.length - d.scanp) =
          chunk :=
        List.drop_left' (by rw [List.length_drop])
      rw [hd3] at ihx
      rcases h4 : scanLoop s l f (chunk ++ rest.flatten) with ⟨s4, l4, f4, o4⟩
      rw [h4] at ihx
      simp only [h4]
      cases o4 with
      | crashed =>
        simp only [shiftStopped]
        rw [hloop]
        exact ihx
      | stopped k4 =>
        simp only [shiftStopped]
        obtain ⟨d1, n, heq, hs, hl, hf, hfpr, herr, hwf, hrem⟩ := ihx
        refine ⟨d1, n, ?_, hs, hl, hf, ?_, ?_, hwf, ?_⟩
        · rw [hloop]; exact heq
        · exact hfpr
        · exact herr
        · rw [hrem, drop_length_add]
      | endOfBuf =>
        simp only [shiftStopped]
        obtain ⟨d1, n, heq, hs, hl, hf, hfpr, herr, hwf, hrem⟩ := ihx
        exact ⟨d1, n, by rw [hloop]; exact heq, hs, hl, hf, hfpr, herr, hwf, hrem⟩
      | failed e =>
        simp only [shiftStopped]
        obtain ⟨d1, heq, hs, hl, hf, hfpr, herr, hwf, hrem⟩ := ihx
        refine ⟨d1, ?_, hs, hl, hf, hfpr, herr, hwf, ?_⟩
        · rw [hloop]; exact heq
        · rw [hrem, List.drop_zero, List.append_assoc]

/-- The abstract (chunking-independent) state of a decoder: the scanner,
the FieldsPerRecord policy, the sticky error, and the remaining logical
byte stream (unscanned buffered bytes followed by everything the source
will still deliver). -/
structure FlatState where
  scan : Scanner
  fpr : Int
  err : Option Err
  rem : List Byte
deriving DecidableEq, Repr

/-- Abstraction of a decoder to its flat state. -/
def absD (d : Decoder) : FlatState :=
  { scan := d.scan, fpr := d.FieldsPerRecord, err := d.err,
    rem := d.buf.drop d.scanp ++ d.src.flatten }

/-- The tail of Decode on the flat state: assemble the fields and apply
the FieldsPerRecord policy. -/
def flatFinish (st : FlatState) (l : List Byte) (f : List Nat)
    (rem1 : List Byte) :
    Option (FlatState × Option (List (List Byte)) × Option Err) :=
  let fields := sliceFields l f
  if st.fpr > 0 then
    if (fields.length : Int) ≠ st.fpr then
      some ({ st with err := some .fieldCount, rem := rem1 }, some fields,
            some .fieldCount)
    else
      some ({ st with rem := rem1 }, some fields, none)
  else if st.fpr = 0 then
    some ({ st with fpr := (fields.length : Int), rem := rem1 }, some fields,
          none)
  else
    some ({ st with rem := rem1 }, some fields, none)

/-- Decode on the flat state: one reference scan of the remaining byte
stream, mirroring Decoder.Decode case by case. -/
def flatDecode (st : FlatState) :
    Option (FlatState × Option (List (List Byte)) × Option Err) :=
  match st.err with
  | some e => some (st, none, some e)
  | none =>
    match scanLoop st.scan.reset [] [0] st.rem with
    | (_, _, _, .crashed) => none
    | (s, l, f, .stopped k) => flatFinish { st with scan := s } l f (st.rem.drop k)
    | (s, l, f, .endOfBuf) => flatFinish { st with scan := s } l f []
    | (s, l, f, .failed eo) =>
      match eo with
      | some e =>
        let e1 := if e = Err.eof then
                    (if f.length = 0 then Err.unexpectedEOF else e)
                  else e
        some ({ st with scan := s, err := some e1 }, none, some e1)
      | none => flatFinish { st with scan := s } l f st.rem

/-- Observation of a Decode result: returned record, returned error, and
the abstract state left behind. -/
def decObsF :
    Option (Decoder × Option (List (List Byte)) × Option Err) →
    Option (Option (List (List Byte)) × Option Err × FlatState)
  | none => none
  | some (d, r, e) => some (r, e, absD d)

/-- Observation of a flatDecode result. -/
def flatObsF :
    Option (FlatState × Option (List (List Byte)) × Option Err) →
    Option (Option (List (List Byte)) × Option Err × FlatState)
  | none => none
  | some (st, r, e) => some (r, e, st)

/-- Decode is simulated by flatDecode over the abstraction: the returned
record and error and the abstract post-state depend only on the abstract
pre-state, and Decode preserves the cursor invariant. -/
theorem decode_flat (d : Decoder) (h : d.scanp ≤ d.buf.length) :
    decObsF d.Decode = flatObsF (flatDecode (absD d)) ∧
    (∀ d1 r e, d.Decode = some (d1, r, e) → d1.scanp ≤ d1.buf.length) := by
  cases herr : d.err with
  | some e =>
    constructor
    · simp [Decoder.Decode, flatDecode, absD, herr, decObsF, flatObsF]
    · intro d1 r e1 hd
      simp [Decoder.Decode, herr] at hd
      rw [← hd.1]
      exact h
  | none =>
    have hmain := readRecordLoop_flat d.src
      { d with scan := d.scan.reset, lineBuffer := [], fieldIndexes := [0] }
      d.scanp (Nat.le_refl _) h
    simp only [] at hmain
    have hdec : d.Decode =
        match readRecordLoop
            { d with scan := d.scan.reset, lineBuffer := [],
                     fieldIndexes := [0] } d.scanp d.src with
        | none => none
        | some (d2, n, eo) =>
          match eo with
          | some e =>
            let e1 := if e = Err.eof then
                        (if d2.fieldIndexes.length = 0 then Err.unexpectedEOF
                         else e)
                      else e
            some ({ d2 with err := some e1 }, none, some e1)
          | none =>
            let d3 := { d2 with scanp := d2.scanp + n }
            let fields := sliceFields d3.lineBuffer d3.fieldIndexes
            if d3.FieldsPerRecord > 0 then
              if (fields.length : Int) ≠ d3.FieldsPerRecord then
                some ({ d3 with err := some .fieldCount }, some fields,
                      some .fieldCount)
              else
                some (d3, some fields, none)
            else if d3.FieldsPerRecord = 0 then
              some ({ d3 with FieldsPerRecord := (fields.length : Int) },
                    some fields, none)
            else
              some (d3, some fields, none) := by
      simp [Decoder.Decode, herr, Decoder.readRecord]
    rcases hscan : scanLoop d.scan.reset [] [0]
        (d.buf.drop d.scanp ++ d.src.flatten) with ⟨s, l, f, o⟩
    rw [hscan] at hmain
    have hflat : flatDecode (absD d) =
        match (s, l, f, o) with
        | (_, _, _, ScanOutcome.crashed) => none
        | (s, l, f, ScanOutcome.stopped k) =>
          flatFinish { absD d with scan := s } l f ((absD d).rem.drop k)
        | (s, l, f, ScanOutcome.endOfBuf) =>
          flatFinish { absD d with scan := s } l f []
        | (s, l, f, ScanOutcome.failed eo) =>
          match eo with
          | some e =>
            let e1 := if e = Err.eof then
                        (if f.length = 0 then Err.unexpectedEOF else e)
                      else e
            some ({ absD d with scan := s, err := some e1 }, none, some e1)
          | none => flatFinish { absD d with scan := s } l f (absD d).rem := by
      simp only [flatDecode, absD, herr]
      rw [hscan]
    cases o with
    | crashed =>
      rw [hmain] at hdec
      constructor
      · rw [hdec, hflat]
        rfl
      · intro d1 r e1 hd
        rw [hd] at hdec
        exact absurd hdec.symm (by simp)
    | stopped k =>
      obtain ⟨d1, n, heq, hs, hl, hf, hfpr, herr1, hwf, hrem⟩ := hmain
      rw [heq] at hdec
      simp only [] at hdec
      constructor
      · rw [hdec, hflat]
        simp only [flatFinish, hl, hf, hfpr, absD]
        split
        · split
          · simp [decObsF, flatObsF, absD, hs, hfpr, herr1, herr, hrem]
          · simp [decObsF, flatObsF, absD, hs, hfpr, herr1, herr, hrem]
        · split
          · simp [decObsF, flatObsF, absD, hs, hfpr, herr1, herr, hrem]
          · simp [decObsF, flatObsF, absD, hs, hfpr, herr1, herr, hrem]
      · intro dx r e1 hd
        rw [hd] at hdec
        repeat' split at hdec
        all_goals
          simp only [Option.some.injEq, Prod.mk.injEq] at hdec
          obtain ⟨h1, -⟩ := hdec
          subst h1
          simpa using hwf
    | endOfBuf =>
      obtain ⟨d1, n, heq, hs, hl, hf, hfpr, herr1, hwf, hrem⟩ := hmain
      rw [heq] at hdec
      simp only [] at hdec
      constructor
      · rw [hdec, hflat]
        simp only [flatFinish, hl, hf, hfpr, absD]
        split
        · split
          · simp [decObsF, flatObsF, absD, hs, hfpr, herr1, herr, hrem]
          · simp [decObsF, flatObsF, absD, hs, hfpr, herr1, herr, hrem]
        · split
          · simp [decObsF, flatObsF, absD, hs, hfpr, herr1, herr, hrem]
          · simp [decObsF, flatObsF, absD, hs, hfpr, herr1, herr, hrem]
      · intro dx r e1 hd
        rw [hd] at hdec
        repeat' split at hdec
        all_goals
          simp only [Option.some.injEq, Prod.mk.injEq] at hdec
          obtain ⟨h1, -⟩ := hdec
          subst h1
          simpa using hwf
    | failed eo =>
      obtain ⟨d1, heq, hs, hl, hf, hfpr, herr1, hwf, hrem⟩ := hmain
      rw [heq] at hdec
      simp only [] at hdec
      cases eo with
      | some e =>
        constructor
        · rw [hdec, hflat]
          simp [decObsF, flatObsF, absD, hs, hf, hfpr, herr1, herr, hrem]
        · intro dx r e1 hd
          rw [hd] at hdec
          simp only [Option.some.injEq, Prod.mk.injEq] at hdec
          obtain ⟨h1, -⟩ := hdec
          subst h1
          simpa using hwf
      | none =>
        constructor
        · rw [hdec, hflat]
          simp only [flatFinish, hl, hf, hfpr, absD]
          split
          · split
            · simp [decObsF, flatObsF, absD, hs, hfpr, herr1, herr, hrem]
            · simp [decObsF, flatObsF, absD, hs, hfpr, herr1, herr, hrem]
          · split
            · simp [decObsF, flatObsF, absD, hs, hfpr, herr1, herr, hrem]
            · simp [decObsF, flatObsF, absD, hs, hfpr, herr1, herr, hrem]
        · intro dx r e1 hd
          rw [hd] at hdec
          repeat' split at hdec
          all_goals
            simp only [Option.some.injEq, Prod.mk.injEq] at hdec
            obtain ⟨h1, -⟩ := hdec
            subst h1
            simpa using hwf

/-- Decoders with the same abstract state produce the same observable
Decode sequences. -/
theorem decodeSeq_abs (k : Nat) :
    ∀ d1 d2 : Decoder, absD d1 = absD d2 →
      d1.scanp ≤ d1.buf.length → d2.scanp ≤ d2.buf.length →
      decodeSeq k d1 = decodeSeq k d2 := by
  induction k with
  | zero =>
    intro d1 d2 _ _ _
    rfl
  | succ k ih =>
    intro d1 d2 habs h1 h2
    have s1 := decode_flat d1 h1
    have s2 := decode_flat d2 h2
    have hobs : decObsF d1.Decode = decObsF d2.Decode := by
      rw [s1.1, habs, s2.1]
    simp only [decodeSeq]
    cases hD1 : d1.Decode with
    | none =>
      cases hD2 : d2.Decode with
      | none => rfl
      | some y =>
        rw [hD1, hD2] at hobs
        obtain ⟨d2x, r2, e2⟩ := y
        simp [decObsF] at hobs
    | some x =>
      obtain ⟨d1x, r1, e1⟩ := x
      cases hD2 : d2.Decode with
      | none =>
        rw [hD1, hD2] at hobs
        simp [decObsF] at hobs
      | some y =>
        obtain ⟨d2x, r2, e2⟩ := y
        rw [hD1, hD2] at hobs
        simp only [decObsF, Option.some.injEq, Prod.mk.injEq] at hobs
        simp only []
        rw [ih d1x d2x hobs.2.2 (s1.2 _ _ _ hD1) (s2.2 _ _ _ hD2),
            hobs.1, hobs.2.1]

/-- Flattening a list of one-byte chunks gives back the byte list. -/
theorem flatten_singletons (bs : List Byte) :
    (bs.map (fun b => [b])).flatten = bs := by
  induction bs with
  | nil => rfl
  | cons c cs ih => simp [ih]

/-- C1: decoding through a source that delivers one byte per read and
through a source that delivers the whole input in a single read produce
the same sequence of Decode results (records and errors), for every
input byte sequence and any number of Decode calls: record content never
depends on how the source chunks its reads. -/
theorem c1_refill_boundary_independence (bs : List Byte) (k : Nat) :
    decodeSeq k (NewDecoder (bs.map (fun b => [b]))) =
      decodeSeq k (NewDecoder [bs]) := by
  apply decodeSeq_abs
  · simp [absD, NewDecoder, flatten_singletons]
  · simp [NewDecoder]
  · simp [NewDecoder]

/-! ### Classification of the errors the scanner can store -/

/-- The only errors the scanner ever stores are ErrBareQuote, ErrQuote
and SyntaxError values; in particular never io.EOF, io.ErrUnexpectedEOF
or ErrFieldCount. -/
def scanErrOK (eo : Option Err) : Prop :=
  ∀ e, eo = some e →
    e = Err.bareQuote ∨ e = Err.quote ∨ ∃ m o, e = Err.synErr m o

theorem scanErrOK_none : scanErrOK none := by
  intro e he
  simp at he

/-- One scanner step preserves the error classification. -/
theorem stepF_errOK (s : Scanner) (c : Byte) (h : scanErrOK s.err) :
    ∀ s1 v, s.stepF c = some (s1, v) → scanErrOK s1.err := by
  intro s1 v hsv
  cases hst : s.step with
  | none => simp [Scanner.stepF, hst] at hsv
  | some st =>
    simp only [Scanner.stepF, hst, Option.some.injEq] at hsv
    cases st <;>
      simp only [stateBeginValueF, stateBeginCommentF, stateCarriageReturnF,
        stateInStringF, stateInStringEscF, stateBareQuoteF, stateInQuotedFieldF,
        stateInUnquotedFieldF, stateBeginTextOrEmptyF, stateEndValueF,
        stateEndTopF, stateErrorF, Scanner.errorF, Scanner.popParseState,
        Scanner.pushParseState] at hsv <;>
      (repeat' split at hsv) <;>
      (simp only [Prod.mk.injEq] at hsv
       obtain ⟨h1, -⟩ := hsv
       subst h1
       first
       | exact h
       | (intro e he
          simp only [Option.some.injEq] at he
          subst he
          first
          | exact Or.inl rfl
          | exact Or.inr (Or.inl rfl)
          | exact Or.inr (Or.inr ⟨_, _, rfl⟩)))

/-- scanStep1 preserves the error classification, and a failed outcome
carries a classified error. -/
theorem scanStep1_errOK (scan : Scanner) (lb : List Byte) (fi : List Nat)
    (c : Byte) (st : Scanner × List Byte × List Nat) (o : Option ScanOutcome)
    (h : scanErrOK scan.err) (heq : scanStep1 scan lb fi c = (st, o)) :
    scanErrOK st.1.err ∧ ∀ eo, o = some (.failed eo) → scanErrOK eo := by
  have hbytes : scanErrOK ({ scan with bytes := scan.bytes + 1 } : Scanner).err := h
  unfold scanStep1 at heq
  simp only [] at heq
  cases hstep : ({ scan with bytes := scan.bytes + 1 } : Scanner).stepF c with
  | none =>
    rw [hstep] at heq
    simp only [Prod.mk.injEq] at heq
    obtain ⟨h1, h2⟩ := heq
    subst h1
    constructor
    · exact hbytes
    · intro eo heo
      rw [← h2] at heo
      simp at heo
  | some sv =>
    obtain ⟨s2, v⟩ := sv
    have hs2 : scanErrOK s2.err :=
      stepF_errOK { scan with bytes := scan.bytes + 1 } c hbytes s2 v hstep
    rw [hstep] at heq
    simp only [] at heq
    repeat' split at heq
    all_goals
      simp only [Prod.mk.injEq] at heq
      obtain ⟨h1, h2⟩ := heq
      subst h1
      refine ⟨hs2, ?_⟩
      intro eo heo
      rw [← h2] at heo
      first
      | (simp only [Option.some.injEq, ScanOutcome.failed.injEq] at heo
         subst heo
         exact hs2)
      | simp at heo

/-- scanLoop preserves the error classification, and a failed outcome
carries a classified error. -/
theorem scanLoop_errOK (bs : List Byte) :
    ∀ (s : Scanner) (lb : List Byte) (fi : List Nat) s1 l1 f1 o,
      scanErrOK s.err → scanLoop s lb fi bs = (s1, l1, f1, o) →
      scanErrOK s1.err ∧ ∀ eo, o = .failed eo → scanErrOK eo := by
  induction bs with
  | nil =>
    intro s lb fi s1 l1 f1 o h heq
    simp only [scanLoop, Prod.mk.injEq] at heq
    obtain ⟨h1, -, -, h4⟩ := heq
    subst h1
    refine ⟨h, ?_⟩
    intro eo heo
    rw [← h4] at heo
    simp at heo
  | cons c cs ih =>
    intro s lb fi s1 l1 f1 o h heq
    simp only [scanLoop] at heq
    rcases hstep : scanStep1 s lb fi c with ⟨⟨s2, l2, f2⟩, o2⟩
    rw [hstep] at heq
    have hstepok := scanStep1_errOK s lb fi c _ _ h hstep
    cases o2 with
    | some o1 =>
      simp only [Prod.mk.injEq] at heq
      obtain ⟨h1, -, -, h4⟩ := heq
      subst h1
      refine ⟨hstepok.1, ?_⟩
      intro eo heo
      rw [← h4] at heo
      subst heo
      exact hstepok.2 eo rfl
    | none =>
      simp only [] at heq
      rcases hcs : scanLoop s2 l2 f2 cs with ⟨s3, l3, f3, o3⟩
      rw [hcs] at heq
      have hih := ih s2 l2 f2 s3 l3 f3 o3 hstepok.1 hcs
      cases o3 with
      | stopped k =>
        simp only [Prod.mk.injEq] at heq
        obtain ⟨h1, -, -, h4⟩ := heq
        subst h1
        refine ⟨hih.1, ?_⟩
        intro eo heo
        rw [← h4] at heo
        simp at heo
      | endOfBuf =>
        simp only [Prod.mk.injEq] at heq
        obtain ⟨h1, -, -, h4⟩ := heq
        subst h1
        refine ⟨hih.1, ?_⟩
        intro eo heo
        rw [← h4] at heo
        simp at heo
      | failed e =>
        simp only [Prod.mk.injEq] at heq
        obtain ⟨h1, -, -, h4⟩ := heq
        subst h1
        refine ⟨hih.1, ?_⟩
        intro eo heo
        rw [← h4] at heo
        simp only [ScanOutcome.failed.injEq] at heo
        subst heo
        exact hih.2 e rfl
      | crashed =>
        simp only [Prod.mk.injEq] at heq
        obtain ⟨h1, -, -, h4⟩ := heq
        subst h1
        refine ⟨hih.1, ?_⟩
        intro eo heo
        rw [← h4] at heo
        simp at heo

/-- One readRecord iteration: a final error is a classified scanner
error, and FieldsPerRecord is never touched. -/
theorem readRecordIter_inv (d : Decoder) (scanp : Nat)
    (src : List (List Byte)) (h : scanErrOK d.scan.err) :
    (∀ res, readRecordIter d scanp src = .inl (some res) →
       scanErrOK res.2.2 ∧ res.1.FieldsPerRecord = d.FieldsPerRecord) ∧
    (∀ d2 sp, readRecordIter d scanp src = .inr (d2, sp) →
       scanErrOK d2.scan.err ∧ d2.FieldsPerRecord = d.FieldsPerRecord) := by
  unfold readRecordIter
  rcases hscan : scanLoop d.scan d.lineBuffer d.fieldIndexes (d.buf.drop scanp)
    with ⟨s, l, f, o⟩
  have hok := scanLoop_errOK _ _ _ _ _ _ _ _ h hscan
  cases o with
  | crashed =>
    constructor
    · intro res heq
      simp at heq
    · intro d2 sp heq
      simp at heq
  | stopped k =>
    constructor
    · intro res heq
      simp only [Sum.inl.injEq, Option.some.injEq] at heq
      rw [← heq]
      exact ⟨scanErrOK_none, rfl⟩
    · intro d2 sp heq
      simp at heq
  | failed e =>
    constructor
    · intro res heq
      simp only [Sum.inl.injEq, Option.some.injEq] at heq
      rw [← heq]
      exact ⟨hok.2 e rfl, rfl⟩
    · intro d2 sp heq
      simp at heq
  | endOfBuf =>
    constructor
    · intro res heq
      simp at heq
    · intro d2 sp heq
      simp only [Sum.inr.injEq, Prod.mk.injEq] at heq
      rw [← heq.1]
      rw [compact_eq]
      exact ⟨hok.1, rfl⟩

/-- The final (io.EOF pending) iteration: same invariants. -/
theorem readRecordAfterEOF_inv (d : Decoder) (scanp : Nat)
    (res : Decoder × Nat × Option Err) (h : scanErrOK d.scan.err)
    (heq : readRecordAfterEOF d scanp = some res) :
    scanErrOK res.2.2 ∧ res.1.FieldsPerRecord = d.FieldsPerRecord := by
  unfold readRecordAfterEOF at heq
  rcases hscan : scanLoop d.scan d.lineBuffer d.fieldIndexes (d.buf.drop scanp)
    with ⟨s, l, f, o⟩
  rw [hscan] at heq
  have hok := scanLoop_errOK _ _ _ _ _ _ _ _ h hscan
  cases o with
  | crashed => simp at heq
  | stopped k =>
    simp only [Option.some.injEq] at heq
    rw [← heq]
    exact ⟨scanErrOK_none, rfl⟩
  | failed e =>
    simp only [Option.some.injEq] at heq
    rw [← heq]
    exact ⟨hok.2 e rfl, rfl⟩
  | endOfBuf =>
    simp only [Option.some.injEq] at heq
    rw [← heq]
    exact ⟨scanErrOK_none, rfl⟩

/-- The readRecord loop: a returned error is a classified scanner error
(never io.EOF, io.ErrUnexpectedEOF or ErrFieldCount), and
FieldsPerRecord is preserved. -/
theorem readRecordLoop_inv (src : List (List Byte)) :
    ∀ (d : Decoder) (scanp : Nat) (res : Decoder × Nat × Option Err),
      scanErrOK d.scan.err → readRecordLoop d scanp src = some res →
      scanErrOK res.2.2 ∧ res.1.FieldsPerRecord = d.FieldsPerRecord := by
  induction src with
  | nil =>
    intro d scanp res h heq
    simp only [readRecordLoop] at heq
    rcases hit : readRecordIter d scanp [] with r | ⟨d2, sp⟩
    · rw [hit] at heq
      simp only [] at heq
      rw [heq] at hit
      exact (readRecordIter_inv d scanp [] h).1 res hit
    · rw [hit] at heq
      simp only [] at heq
      have h2 := (readRecordIter_inv d scanp [] h).2 d2 sp hit
      have h3 := readRecordAfterEOF_inv { d2 with src := [] } sp res h2.1 heq
      exact ⟨h3.1, h3.2.trans h2.2⟩
  | cons chunk rest ih =>
    intro d scanp res h heq
    simp only [readRecordLoop] at heq
    rcases hit : readRecordIter d scanp (chunk :: rest) with r | ⟨d2, sp⟩
    · rw [hit] at heq
      simp only [] at heq
      rw [heq] at hit
      exact (readRecordIter_inv d scanp (chunk :: rest) h).1 res hit
    · rw [hit] at heq
      simp only [] at heq
      have h2 := (readRecordIter_inv d scanp (chunk :: rest) h).2 d2 sp hit
      have h3 := ih { d2 with buf := d2.buf ++ chunk, src := rest } sp res
        h2.1 heq
      exact ⟨h3.1, h3.2.trans h2.2⟩

/-- readRecord: a returned error is a classified scanner error, and
FieldsPerRecord is preserved. -/
theorem readRecord_inv (d : Decoder) (res : Decoder × Nat × Option Err)
    (heq : d.readRecord = some res) :
    scanErrOK res.2.2 ∧ res.1.FieldsPerRecord = d.FieldsPerRecord := by
  unfold Decoder.readRecord at heq
  simp only [] at heq
  exact readRecordLoop_inv d.src
    { d with scan := d.scan.reset, fieldIndexes := d.fieldIndexes ++ [0] }
    d.scanp res scanErrOK_none heq

/-- C7 amended: readRecord never returns an end-of-input error (its
error returns are classified scanner errors, so Decode's
io.ErrUnexpectedEOF branch is unreachable); instead, end-of-input makes
readRecord consume all buffered bytes and report success, so Decode
returns the fields assembled so far with no error: a single empty field
at a clean end-of-stream, and the partial record when the input ends
mid-record. -/
theorem c7_end_of_input_amended :
    (∀ (d : Decoder) (res : Decoder × Nat × Option Err),
        d.readRecord = some res → ∀ e, res.2.2 = some e →
        e ≠ Err.eof ∧ e ≠ Err.unexpectedEOF ∧ e ≠ Err.fieldCount) ∧
    decodeObs (NewDecoder []) = some (some [[]], none) ∧
    decodeObs (NewDecoder [[97, commaB]]) = some (some [[97], []], none) := by
  refine ⟨?_, by decide, by decide⟩
  intro d res hres e he
  have h := (readRecord_inv d res hres).1 e he
  rcases h with h | h | ⟨m, o, h⟩ <;> subst h <;>
    exact ⟨by simp, by simp, by simp⟩

/-- A decoder whose input holds a bare quote, used to witness
c7_end_of_input_amended. -/
def c7wD : Decoder := NewDecoder [[97, quoteB]]

/-- The result of the witnessing readRecord call. -/
def c7wRes : Decoder × Nat × Option Err :=
  (c7wD.readRecord).getD (c7wD, 0, none)

/-- Witness for c7_end_of_input_amended: the readRecord error of input
with a bare quote is ErrBareQuote, not an end-of-input error. -/
theorem c7_end_of_input_amended_witness :
    c7wD.readRecord = some c7wRes ∧ c7wRes.2.2 = some Err.bareQuote ∧
    (Err.bareQuote ≠ Err.eof ∧ Err.bareQuote ≠ Err.unexpectedEOF ∧
     Err.bareQuote ≠ Err.fieldCount) :=
  ⟨by decide, by decide,
   c7_end_of_input_amended.1 c7wD c7wRes (by decide) Err.bareQuote (by decide)⟩

/-- C8: with FieldsPerRecord = 0, a stream whose first record has 3
fields and second has 2 decodes the first successfully, locks the count,
and fails the second with ErrFieldCount (the fields still being
returned); with FieldsPerRecord = -1 both records decode; and with any
positive setting, a Decode that produces a record reports ErrFieldCount
exactly when the observed field count differs from the setting. -/
theorem c8_fields_per_record :
    decodeSeq 2 (NewDecoder [[97, 44, 98, 44, 99, 10, 100, 44, 101, 10]]) =
      [some (some [[97], [98], [99]], none),
       some (some [[100], [101]], some Err.fieldCount)] ∧
    decodeSeq 2 { NewDecoder [[97, 44, 98, 44, 99, 10, 100, 44, 101, 10]] with
                  FieldsPerRecord := -1 } =
      [some (some [[97], [98], [99]], none),
       some (some [[100], [101]], none)] ∧
    (∀ (d : Decoder) (k : Int), 0 < k → d.FieldsPerRecord = k → d.err = none →
      ∀ d1 fs eo, d.Decode = some (d1, some fs, eo) →
        (eo = some Err.fieldCount ↔ (fs.length : Int) ≠ k)) := by
  refine ⟨by decide, by decide, ?_⟩
  intro d k hk hfpr herr d1 fs eo hd
  simp only [Decoder.Decode, herr] at hd
  cases hrr : ({ d with err := none, lineBuffer := [], fieldIndexes := [] } : Decoder).readRecord with
  | none =>
    rw [hrr] at hd
    simp at hd
  | some res =>
    obtain ⟨d2, n, eo2⟩ := res
    rw [hrr] at hd
    have hinv := readRecord_inv _ _ hrr
    have hfpr2 : d2.FieldsPerRecord = k := by
      have := hinv.2
      simp only [] at this
      rw [this, hfpr]
    cases eo2 with
    | some e2 =>
      simp only [] at hd
      simp at hd
    | none =>
      simp only [] at hd
      repeat' split at hd
      all_goals simp only [Option.some.injEq, Prod.mk.injEq] at hd
      · -- positive, count mismatch: error is ErrFieldCount
        rename_i hpos hne
        obtain ⟨-, hfs, heo⟩ := hd
        rw [← heo]
        have hlen : (fs.length : Int) ≠ k := by
          rw [← hfs]
          rw [hfpr2] at hne
          exact hne
        exact ⟨fun _ => hlen, fun _ => rfl⟩
      · -- positive, count matches: no error
        rename_i hpos hne
        obtain ⟨-, hfs, heo⟩ := hd
        rw [← heo]
        have hlen : ¬((fs.length : Int) ≠ k) := by
          rw [← hfs]
          rw [hfpr2] at hne
          exact hne
        constructor
        · intro hco
          simp at hco
        · intro hco
          exact absurd hco hlen
      · -- FieldsPerRecord = 0: contradicts positivity
        rename_i hpos hzero
        rw [hfpr2] at hzero
        omega
      · -- FieldsPerRecord negative: contradicts positivity
        rename_i hpos hzero
        rw [hfpr2] at hpos
        omega

/-- A decoder with an enforced field count of 2, used to witness the
general part of c8_fields_per_record. -/
def c8wD : Decoder := { NewDecoder [[97, 10]] with FieldsPerRecord := 2 }

/-- The decoder state after the witnessing Decode call. -/
def c8wDPost : Decoder :=
  match c8wD.Decode with
  | some (d1, _, _) => d1
  | none => c8wD

/-- Witness for c8_fields_per_record: one record of one field against an
enforced count of 2 reports ErrFieldCount. -/
theorem c8_fields_per_record_witness :
    (0 : Int) < 2 ∧ c8wD.FieldsPerRecord = 2 ∧ c8wD.err = none ∧
    (some Err.fieldCount = some Err.fieldCount ↔
      ((([[97]] : List (List Byte)).length : Int) ≠ 2)) :=
  ⟨by decide, by decide, by decide,
   c8_fields_per_record.2.2 c8wD 2 (by decide) rfl rfl c8wDPost [[97]]
     (some Err.fieldCount) (by decide)⟩

/-- C10: a Decode call on a decoder with no stored error that fails
returns a non-nil record exactly when the failure is the
fixed-field-count check (ErrFieldCount); every other failure returns a
nil record with the error. -/
theorem c10_fieldcount_returns_fields (d : Decoder) (h : d.err = none) :
    ∀ d1 r e, d.Decode = some (d1, r, some e) →
      ((∃ fs, r = some fs) ↔ e = Err.fieldCount) := by
  intro d1 r e hd
  simp only [Decoder.Decode, h] at hd
  cases hrr : ({ d with err := none, lineBuffer := [], fieldIndexes := [] } : Decoder).readRecord with
  | none =>
    rw [hrr] at hd
    simp at hd
  | some res =>
    obtain ⟨d2, n, eo2⟩ := res
    rw [hrr] at hd
    have hinv := readRecord_inv _ _ hrr
    cases eo2 with
    | some e2 =>
      simp only [] at hd
      have hcls := hinv.1 e2 rfl
      have he2 : e2 ≠ Err.eof := by
        rcases hcls with h1 | h1 | ⟨m, o, h1⟩ <;> subst h1 <;> simp
      rw [if_neg he2] at hd
      simp only [Option.some.injEq, Prod.mk.injEq] at hd
      obtain ⟨-, hr, he⟩ := hd
      have hee : e2 = e := by
        simpa using he
      constructor
      · intro ⟨fs, hfs⟩
        rw [← hr] at hfs
        simp at hfs
      · intro hfc
        exfalso
        rw [hee, hfc] at hcls
        rcases hcls with h1 | h1 | ⟨m, o, h1⟩ <;> simp at h1
    | none =>
      simp only [] at hd
      repeat' split at hd
      all_goals simp only [Option.some.injEq, Prod.mk.injEq] at hd
      -- only the count-mismatch branch can return an error; the other
      -- branches return a none error, contradicting some e
      · obtain ⟨-, hr, he⟩ := hd
        constructor
        · intro _
          rw [← he]
        · intro _
          exact ⟨_, hr.symm⟩
      all_goals exact absurd hd.2.2 (by simp)

/-- A decoder with an enforced field count of 3, used to witness
c10_fieldcount_returns_fields. -/
def c10wD : Decoder := { NewDecoder [[97, 44, 98, 10]] with FieldsPerRecord := 3 }

/-- The decoder state after the witnessing Decode call. -/
def c10wDPost : Decoder :=
  match c10wD.Decode with
  | some (d1, _, _) => d1
  | none => c10wD

/-- Witness for c10_fieldcount_returns_fields: the ErrFieldCount failure
at a concrete input carries the assembled record. -/
theorem c10_fieldcount_returns_fields_witness :
    c10wD.err = none ∧
    ((∃ fs, (some [[97], [98]] : Option (List (List Byte))) = some fs) ↔
      Err.fieldCount = Err.fieldCount) :=
  ⟨rfl, c10_fieldcount_returns_fields c10wD rfl c10wDPost (some [[97], [98]])
    Err.fieldCount (by decide)⟩

/-! ### Properties of peek and More -/

/-- If the peek scan finds no byte, every byte of the slice is
decoder-space. -/
theorem findNonSpace_none_all (trim : Bool) (bs : List Byte) :
    ∀ i, findNonSpace trim bs i = none →
      ∀ c ∈ bs, decoderIsSpace trim c = true := by
  induction bs with
  | nil =>
    intro i _ c hc
    simp at hc
  | cons b cs ih =>
    intro i h c hc
    simp only [findNonSpace] at h
    split at h
    · rcases List.mem_cons.mp hc with rfl | hc
      · assumption
      · exact ih (i + 1) h c hc
    · simp at h

/-- If the peek scan finds index j, the found index is past the start
and everything skipped is decoder-space. -/
theorem findNonSpace_some_spec (trim : Bool) (bs : List Byte) :
    ∀ i j c, findNonSpace trim bs i = some (j, c) →
      i ≤ j ∧ ∀ x ∈ bs.take (j - i), decoderIsSpace trim x = true := by
  induction bs with
  | nil =>
    intro i j c h
    simp [findNonSpace] at h
  | cons b cs ih =>
    intro i j c h
    simp only [findNonSpace] at h
    split at h
    · have hih := ih (i + 1) j c h
      refine ⟨by omega, ?_⟩
      intro x hx
      have hji : j - i = (j - (i + 1)) + 1 := by omega
      rw [hji, List.take_succ_cons] at hx
      rcases List.mem_cons.mp hx with rfl | hx
      · assumption
      · exact hih.2 x hx
    · simp only [Option.some.injEq, Prod.mk.injEq] at h
      obtain ⟨h1, -⟩ := h
      subst h1
      refine ⟨Nat.le_refl _, ?_⟩
      intro x hx
      simp at hx

/-- The peek loop only advances the cursor past decoder-space bytes: the
remaining logical stream loses a prefix of space bytes and nothing else;
moreover the scanner and the sticky error are untouched, and a reported
error is io.EOF with the source exhausted, cursor at 0, and an all-space
buffer. -/
theorem peekLoop_spec (src : List (List Byte)) :
    ∀ d d1 r e, peekLoop d src = (d1, r, e) →
      (∃ pre, d.buf.drop d.scanp ++ src.flatten =
                pre ++ (d1.buf.drop d1.scanp ++ d1.src.flatten) ∧
              ∀ c ∈ pre, decoderIsSpace d.scan.TrimLeadingSpace c = true) ∧
      d1.scan = d.scan ∧ d1.err = d.err ∧
      (∀ e1, e = some e1 → e1 = Err.eof ∧ r = none ∧ d1.src = [] ∧
        d1.scanp = 0 ∧
        findNonSpace d1.scan.TrimLeadingSpace (d1.buf.drop 0) 0 = none) := by
  induction src with
  | nil =>
    intro d d1 r e h
    simp only [peekLoop] at h
    rcases hfind : findNonSpace d.scan.TrimLeadingSpace
        (d.buf.drop d.scanp) d.scanp with - | ⟨j, c⟩
    · rw [hfind] at h
      simp only [compact_eq, List.drop_zero] at h
      rcases hfind2 : findNonSpace d.scan.TrimLeadingSpace
          (d.buf.drop d.scanp) 0 with - | ⟨j2, c2⟩
      · rw [hfind2] at h
        simp only [Prod.mk.injEq] at h
        obtain ⟨h1, h2, h3⟩ := h
        subst h1
        refine ⟨⟨[], by simp, by simp⟩, rfl, rfl, ?_⟩
        intro e1 he1
        rw [← h3] at he1
        simp only [Option.some.injEq] at he1
        exact ⟨he1.symm, h2.symm, rfl, rfl, by simpa using hfind2⟩
      · rw [hfind2] at h
        simp only [Prod.mk.injEq] at h
        obtain ⟨h1, h2, h3⟩ := h
        subst h1
        have hspec := findNonSpace_some_spec _ _ _ _ _ hfind2
        refine ⟨?_, rfl, rfl, ?_⟩
        · refine ⟨(d.buf.drop d.scanp).take j2, ?_, ?_⟩
          · have hdj : (d.buf.drop d.scanp).drop j2 =
                (d.buf.drop d.scanp).drop (j2 - 0) := by simp
            simp only [List.flatten_nil, List.append_nil, List.drop_drop]
            rw [← List.take_append_drop j2 (d.buf.drop d.scanp)]
            simp [List.drop_drop]
          · intro x hx
            exact hspec.2 x (by simpa using hx)
        · intro e1 he1
          rw [← h3] at he1
          simp at he1
    · rw [hfind] at h
      simp only [Prod.mk.injEq] at h
      obtain ⟨h1, h2, h3⟩ := h
      subst h1
      have hspec := findNonSpace_some_spec _ _ _ _ _ hfind
      refine ⟨?_, rfl, rfl, ?_⟩
      · refine ⟨(d.buf.drop d.scanp).take (j - d.scanp), ?_, hspec.2⟩
        have hdj : d.buf.drop j = (d.buf.drop d.scanp).drop (j - d.scanp) := by
          rw [List.drop_drop]
          congr 1
          have := hspec.1
          omega
        simp only []
        rw [hdj, ← List.append_assoc, List.take_append_drop]
      · intro e1 he1
        rw [← h3] at he1
        simp at he1
  | cons chunk rest ih =>
    intro d d1 r e h
    simp only [peekLoop] at h
    rcases hfind : findNonSpace d.scan.TrimLeadingSpace
        (d.buf.drop d.scanp) d.scanp with - | ⟨j, c⟩
    · rw [hfind] at h
      simp only [compact_eq] at h
      have hih := ih _ _ _ _ h
      have hall := findNonSpace_none_all _ _ _ hfind
      simp only [List.drop_zero] at hih
      obtain ⟨⟨pre, hpre, hsp⟩, hscan, herr, heof⟩ := hih
      refine ⟨⟨pre, ?_, hsp⟩, hscan, herr, heof⟩
      rw [List.flatten_cons, ← List.append_assoc]
      exact hpre
    · rw [hfind] at h
      simp only [Prod.mk.injEq] at h
      obtain ⟨h1, h2, h3⟩ := h
      subst h1
      have hspec := findNonSpace_some_spec _ _ _ _ _ hfind
      refine ⟨?_, rfl, rfl, ?_⟩
      · refine ⟨(d.buf.drop d.scanp).take (j - d.scanp), ?_, hspec.2⟩
        have hdj : d.buf.drop j = (d.buf.drop d.scanp).drop (j - d.scanp) := by
          rw [List.drop_drop]
          congr 1
          have := hspec.1
          omega
        simp only []
        rw [hdj, ← List.append_assoc, List.take_append_drop]
      · intro e1 he1
        rw [← h3] at he1
        simp at he1

/-- C9 amended: peek (hence More) only advances the unread-data cursor
past bytes satisfying Decoder.isSpace (tab/CR/LF, plus space when
trimming) — the remaining logical stream only ever loses a prefix of
such bytes, which however may include content bytes of the next record
(see the counterexample); and once More has returned false it returns
false again on the next call. -/
theorem c9_more_amended :
    (∀ (d : Decoder) d1 r e, d.peek = (d1, r, e) →
      ∃ pre, d.buf.drop d.scanp ++ d.src.flatten =
               pre ++ (d1.buf.drop d1.scanp ++ d1.src.flatten) ∧
             ∀ c ∈ pre, decoderIsSpace d.scan.TrimLeadingSpace c = true) ∧
    (∀ d : Decoder, (d.More).2 = false → (((d.More).1).More).2 = false) := by
  constructor
  · intro d d1 r e h
    exact ((peekLoop_spec d.src d d1 r e h).1)
  · intro d h
    unfold Decoder.More Decoder.peek at h ⊢
    rcases hp : peekLoop d d.src with ⟨d1, r1, e1⟩
    try rw [hp] at h
    try rw [hp]
    simp only [] at h ⊢
    have hspec := peekLoop_spec d.src d d1 r1 e1 hp
    rcases hp2 : peekLoop d1 d1.src with ⟨d2, r2, e2⟩
    try rw [hp2]
    simp only []
    have hscan2 : d2.scan = d1.scan := (peekLoop_spec d1.src d1 d2 r2 e2 hp2).2.1
    by_cases herr1 : d1.scan.err = none
    · cases he1 : e1 with
      | none =>
        exfalso
        rw [he1] at h
        simp [herr1] at h
      | some ex =>
        obtain ⟨-, -, hsrc, hscanp, hfind⟩ := hspec.2.2.2 ex he1
        have hfind0 : findNonSpace d1.scan.TrimLeadingSpace d1.buf 0 = none := by
          rw [List.drop_zero] at hfind
          exact hfind
        have heof : (peekLoop d1 d1.src).2.2 = some Err.eof := by
          rw [hsrc]
          simp only [peekLoop, compact_eq, hscanp, List.drop_zero, hfind0]
        rw [hp2] at heof
        simp only [] at heof
        subst heof
        simp
    · rw [hscan2]
      simp [herr1]

def c9wD : Decoder := NewDecoder [[9, 98, 10]]

theorem c9_more_amended_witness :
    (∃ pre, c9wD.buf.drop c9wD.scanp ++ c9wD.src.flatten =
       pre ++ ((c9wD.peek).1.buf.drop (c9wD.peek).1.scanp ++
               (c9wD.peek).1.src.flatten) ∧
       ∀ c ∈ pre, decoderIsSpace c9wD.scan.TrimLeadingSpace c = true) ∧
    ((((NewDecoder ([] : List (List Byte))).More).1).More).2 = false :=
  ⟨c9_more_amended.1 c9wD (c9wD.peek).1 (c9wD.peek).2.1 (c9wD.peek).2.2 rfl,
   c9_more_amended.2 (NewDecoder []) (by decide)⟩

/-! ### CRLF versus LF record termination (C5) -/

/-- The scanner states reachable while scanning a record body made of
ordinary bytes (no NUL, LF, CR or quote) under the NewDecoder
configuration: the configuration fields at their NewDecoder values, no
error, redo clear, and the step either stateBeginValue or
stateInUnquotedField, the latter with a nonempty parse stack. -/
def BodyInv (s : Scanner) : Prop :=
  s.Delimiter = commaB ∧ s.Comment = 0 ∧ s.TrimLeadingSpace = false ∧
  s.LazyQuotes = false ∧ s.err = none ∧ s.redo = false ∧
  (s.step = some .beginValue ∨
   (s.step = some .inUnquotedField ∧ s.parseState ≠ []))

theorem scanStep1_body (s : Scanner) (lb : List Byte) (fi : List Nat)
    (c : Byte) (hs : BodyInv s)
    (hc : c ≠ 0 ∧ c ≠ lfB ∧ c ≠ crB ∧ c ≠ quoteB) :
    ∃ s1 lb1 fi1, scanStep1 s lb fi c = ((s1, lb1, fi1), none) ∧
      BodyInv s1 ∧
      (s1.parseState = [] ↔ (s.parseState = [] ∧ c = commaB)) := by
  obtain ⟨hD, hC, hT, hL, hE, hR, hstep⟩ := hs
  obtain ⟨hc0, hc10, hc13, hc34⟩ := hc
  have g10 : ¬ c = 10 := by simpa [lfB] using hc10
  have g13 : ¬ c = 13 := by simpa [crB] using hc13
  have g34 : ¬ c = 34 := by simpa [quoteB] using hc34
  rcases hstep with h | ⟨h, hps⟩ <;> by_cases hcomma : c = commaB
  · subst hcomma
    refine ⟨{ s with bytes := s.bytes + 1 }, lb, fi ++ [lb.length], ?_, ?_, ?_⟩
    · simp [scanStep1, Scanner.stepF, h, stateBeginValueF, hD, hC, hT, hE,
            commaB, spaceB, quoteB, crB, lfB, scanFieldDelimiter, scanEnd,
            scanEndRecord, scanError, scanSkipSpace, scanBeginField]
    · exact ⟨hD, hC, hT, hL, hE, hR, Or.inl h⟩
    · simp [commaB]
  · refine ⟨{ s with bytes := s.bytes + 1, parseState := s.parseState ++ [parseFieldValue], step := some .inUnquotedField }, lb ++ [c], fi, ?_, ?_, ?_⟩
    · have g44 : ¬ c = 44 := by simpa [commaB] using hcomma
      simp [scanStep1, Scanner.stepF, h, stateBeginValueF, hD, hC, hT, hE,
            Scanner.pushParseState, commaB, spaceB, quoteB, crB, lfB,
            hc0, g10, g13, g34, g44, scanFieldDelimiter, scanEnd,
            scanEndRecord, scanError, scanSkipSpace, scanBeginField]
    · exact ⟨hD, hC, hT, hL, hE, hR, Or.inr ⟨rfl, by simp⟩⟩
    · simp [hcomma]
  · subst hcomma
    refine ⟨{ s with bytes := s.bytes + 1, step := some .beginValue }, lb, fi ++ [lb.length], ?_, ?_, ?_⟩
    · simp [scanStep1, Scanner.stepF, h, stateInUnquotedFieldF,
            stateBeginValueF, hD, hC, hT, hE, commaB, spaceB, quoteB, crB,
            lfB, scanFieldDelimiter, scanEnd, scanEndRecord, scanError,
            scanSkipSpace, scanBeginField]
    · exact ⟨hD, hC, hT, hL, hE, hR, Or.inl rfl⟩
    · simp [commaB]
  · refine ⟨{ s with bytes := s.bytes + 1 }, lb ++ [c], fi, ?_, ?_, ?_⟩
    · have g44 : ¬ c = 44 := by simpa [commaB] using hcomma
      simp [scanStep1, Scanner.stepF, h, stateInUnquotedFieldF, hD, hC, hT,
            hE, hL, commaB, spaceB, quoteB, crB, lfB, hc0, g10, g13, g34,
            g44, scanFieldDelimiter, scanEnd, scanEndRecord, scanError,
            scanSkipSpace, scanBeginField, scanContinue]
    · exact ⟨hD, hC, hT, hL, hE, hR, Or.inr ⟨h, hps⟩⟩
    · simp [hcomma, hps]

theorem scanLoop_body (body : List Byte) :
    (∀ c ∈ body, c ≠ 0 ∧ c ≠ lfB ∧ c ≠ crB ∧ c ≠ quoteB) →
    ∀ (s : Scanner) (lb : List Byte) (fi : List Nat), BodyInv s →
    ∃ s1 lb1 fi1, scanLoop s lb fi body = (s1, lb1, fi1, .endOfBuf) ∧
      BodyInv s1 ∧
      (s1.parseState = [] ↔
        (s.parseState = [] ∧ ∀ c ∈ body, c = commaB)) := by
  induction body with
  | nil =>
    intro _ s lb fi hs
    exact ⟨s, lb, fi, rfl, hs, by simp⟩
  | cons c cs ih =>
    intro hb s lb fi hs
    obtain ⟨s1, lb1, fi1, hstep, hinv1, hps1⟩ :=
      scanStep1_body s lb fi c hs (hb c (by simp))
    obtain ⟨s2, lb2, fi2, hloop, hinv2, hps2⟩ :=
      ih (fun x hx => hb x (by simp [hx])) s1 lb1 fi1 hinv1
    refine ⟨s2, lb2, fi2, ?_, hinv2, ?_⟩
    · simp only [scanLoop, hstep, hloop]
    · rw [hps2, hps1]
      simp only [List.forall_mem_cons]
      constructor
      · rintro ⟨⟨hsp, hcc⟩, hall⟩
        exact ⟨hsp, hcc, hall⟩
      · rintro ⟨hsp, hcc, hall⟩
        exact ⟨⟨hsp, hcc⟩, hall⟩

theorem scanTail_lf (s : Scanner) (lb : List Byte) (fi : List Nat)
    (hs : BodyInv s) :
    ∃ s2, scanLoop s lb fi [lfB] = (s2, lb, fi, .stopped 1) := by
  obtain ⟨hD, hC, hT, hL, hE, hR, hstep⟩ := hs
  rcases hstep with h | ⟨h, hps⟩
  · refine ⟨{ s with bytes := s.bytes + 1 }, ?_⟩
    simp [scanLoop, scanStep1, Scanner.stepF, h, stateBeginValueF, hD, hC,
          hT, hE, hR, commaB, spaceB, quoteB, crB, lfB, scanFieldDelimiter,
          scanEnd, scanEndRecord, scanError, scanSkipSpace]
  · refine ⟨{ s with bytes := s.bytes + 1, step := some .beginValue }, ?_⟩
    simp [scanLoop, scanStep1, Scanner.stepF, h, stateInUnquotedFieldF, hD,
          hC, hT, hE, hL, hR, commaB, spaceB, quoteB, crB, lfB,
          scanFieldDelimiter, scanEnd, scanEndRecord, scanError,
          scanSkipSpace]

theorem scanTail_crlf (s : Scanner) (lb : List Byte) (fi : List Nat)
    (hs : BodyInv s) (hps : s.parseState ≠ []) :
    ∃ s2, scanLoop s lb fi [crB, lfB] = (s2, lb, fi, .stopped 2) := by
  obtain ⟨hD, hC, hT, hL, hE, hR, hstep⟩ := hs
  have hn : ¬ s.parseState.length = 0 := by simpa using hps
  rcases hstep with h | ⟨h, -⟩
  · refine ⟨({ s with bytes := s.bytes + 1 + 1, step := some ScanState.carriageReturn } : Scanner).popParseState, ?_⟩
    simp [scanLoop, scanStep1, Scanner.stepF, h, stateBeginValueF,
          stateCarriageReturnF, stateEndValueF, isSpacePkg, hD, hC, hT, hE,
          hR, hn, commaB, spaceB, quoteB, crB, lfB, tabB,
          Scanner.popParseState, scanFieldDelimiter, scanEnd, scanEndRecord,
          scanError, scanSkipSpace]
    intro hred
    split at hred <;> simp at hred
  · refine ⟨({ s with bytes := s.bytes + 1 + 1, redoState := some ScanState.inUnquotedField, step := some ScanState.carriageReturn } : Scanner).popParseState, ?_⟩
    simp [scanLoop, scanStep1, Scanner.stepF, h, stateInUnquotedFieldF,
          stateCarriageReturnF, stateEndValueF, isSpacePkg, hD, hC, hT, hE,
          hL, hR, hn, commaB, spaceB, quoteB, crB, lfB, tabB,
          Scanner.popParseState, scanFieldDelimiter, scanEnd, scanEndRecord,
          scanError, scanSkipSpace]
    intro hred
    split at hred <;> simp at hred

/-- The observable record and error of flatFinish depend only on the
slices and the FieldsPerRecord policy, not on the stored scanner or the
remaining bytes. -/
theorem flatFinish_obs (st st' : FlatState) (l : List Byte) (f : List Nat)
    (r1 r2 : List Byte) (hf : st'.fpr = st.fpr) :
    (flatFinish st l f r1).map (fun x => (x.2.1, x.2.2)) =
    (flatFinish st' l f r2).map (fun x => (x.2.1, x.2.2)) := by
  by_cases h1 : st.fpr > 0
  · by_cases h2 : ((sliceFields l f).length : Int) = st.fpr
    · simp [flatFinish, hf, h1, h2]
    · simp [flatFinish, hf, h1, h2]
  · by_cases h2 : st.fpr = 0
    · simp [flatFinish, hf, h1, h2]
    · simp [flatFinish, hf, h1, h2]

/-- A flat Decode whose reference scan stops yields the record sliced
from the final lineBuffer and fieldIndexes, with no error. -/
theorem flatDecode_stopped (st : FlatState) (hE : st.err = none)
    (s1 : Scanner) (l : List Byte) (f : List Nat) (k : Nat)
    (h : scanLoop st.scan.reset [] [0] st.rem = (s1, l, f, .stopped k)) :
    (flatDecode st).map (fun x => (x.2.1, x.2.2)) =
      (flatFinish st l f []).map (fun x => (x.2.1, x.2.2)) := by
  unfold flatDecode
  rw [hE, h]
  exact flatFinish_obs _ _ _ _ _ _ rfl

/-- The observable part of Decode factors through the flat model. -/
theorem decodeObs_flat (d : Decoder) (h : d.scanp ≤ d.buf.length) :
    decodeObs d = (flatDecode (absD d)).map (fun x => (x.2.1, x.2.2)) := by
  have hsim := (decode_flat d h).1
  unfold decodeObs
  cases hd : d.Decode with
  | none =>
    rw [hd] at hsim
    cases hf : flatDecode (absD d) with
    | none => simp
    | some v =>
      rw [hf] at hsim
      simp [decObsF, flatObsF] at hsim
  | some v =>
    obtain ⟨d1, r, e⟩ := v
    rw [hd] at hsim
    cases hf : flatDecode (absD d) with
    | none =>
      rw [hf] at hsim
      simp [decObsF, flatObsF] at hsim
    | some w =>
      obtain ⟨stw, r2, e2⟩ := w
      rw [hf] at hsim
      simp only [decObsF, flatObsF, Option.some.injEq, Prod.mk.injEq] at hsim
      obtain ⟨hr, he, -⟩ := hsim
      simp [Option.map, hr, he]

/-- C5, amended: the spec's concrete example holds (a,b terminated by
CRLF and by LF both decode to the two fields a and b), and in general
CRLF and LF termination decode alike for every record body made of
bytes other than NUL, LF, CR and the quote that is not entirely
delimiters; bodies containing CR (see the counterexample) or consisting
only of delimiters are genuine exceptions. -/
theorem c5_crlf_lf_amended :
    (decodeObs (NewDecoder [[97, commaB, 98, crB, lfB]]) =
       decodeObs (NewDecoder [[97, commaB, 98, lfB]]) ∧
     decodeObs (NewDecoder [[97, commaB, 98, lfB]]) =
       some (some [[97], [98]], none)) ∧
    (∀ body : List Byte,
      (∀ c ∈ body, c ≠ 0 ∧ c ≠ lfB ∧ c ≠ crB ∧ c ≠ quoteB) →
      (∃ c ∈ body, c ≠ commaB) →
      decodeObs (NewDecoder [body ++ [crB, lfB]]) =
        decodeObs (NewDecoder [body ++ [lfB]])) := by
  refine ⟨⟨by decide, by decide⟩, ?_⟩
  intro body hb hex
  have hinv0 : BodyInv scan0 :=
    ⟨rfl, rfl, rfl, rfl, rfl, rfl, Or.inl rfl⟩
  obtain ⟨s1, lb1, fi1, hloop, hinv1, hpsiff⟩ :=
    scanLoop_body body hb scan0 [] [0] hinv0
  have hps1 : s1.parseState ≠ [] := by
    obtain ⟨c0, hc0m, hc0ne⟩ := hex
    intro hcontra
    rw [hpsiff] at hcontra
    exact hc0ne (hcontra.2 c0 hc0m)
  obtain ⟨sA, htailA⟩ := scanTail_crlf s1 lb1 fi1 hinv1 hps1
  obtain ⟨sB, htailB⟩ := scanTail_lf s1 lb1 fi1 hinv1
  have hA : scanLoop scan0 [] [0] (body ++ [crB, lfB]) =
      (sA, lb1, fi1, .stopped (body.length + 2)) := by
    rw [scanLoop_append, hloop]
    simp [htailA, shiftStopped]
  have hB : scanLoop scan0 [] [0] (body ++ [lfB]) =
      (sB, lb1, fi1, .stopped (body.length + 1)) := by
    rw [scanLoop_append, hloop]
    simp [htailB, shiftStopped]
  have hremA : (absD (NewDecoder [body ++ [crB, lfB]])).rem =
      body ++ [crB, lfB] := by
    simp [absD, NewDecoder]
  have hremB : (absD (NewDecoder [body ++ [lfB]])).rem =
      body ++ [lfB] := by
    simp [absD, NewDecoder]
  have hA2 : scanLoop (absD (NewDecoder [body ++ [crB, lfB]])).scan.reset
      [] [0] (absD (NewDecoder [body ++ [crB, lfB]])).rem =
      (sA, lb1, fi1, .stopped (body.length + 2)) := by
    rw [hremA]
    exact hA
  have hB2 : scanLoop (absD (NewDecoder [body ++ [lfB]])).scan.reset
      [] [0] (absD (NewDecoder [body ++ [lfB]])).rem =
      (sB, lb1, fi1, .stopped (body.length + 1)) := by
    rw [hremB]
    exact hB
  rw [decodeObs_flat _ (le_refl 0), decodeObs_flat _ (le_refl 0),
      flatDecode_stopped _ rfl _ _ _ _ hA2,
      flatDecode_stopped _ rfl _ _ _ _ hB2]
  exact flatFinish_obs _ _ _ _ _ _ rfl

theorem c5_crlf_lf_amended_witness :
    decodeObs (NewDecoder [[99, crB, lfB]]) =
      decodeObs (NewDecoder [[99, lfB]]) :=
  c5_crlf_lf_amended.2 [99] (by decide) ⟨99, by decide, by decide⟩

end CsvStream
